import Mathlib

/-!
Verification of sparrow: a tun/tap interface bridged to an SQLite packet store

Shallow embedding of `src/sparrow.cpp`.

The program keeps captured frames in the table `packets (data BLOB)` of an
SQLite database and talks to a tun/tap device through `read`/`write`.
The SQLite engine, the C library (`getopt`, `strncpy`, `malloc`) and the
tun/tap device are the environment of the program; each is modelled below
next to the place that uses it, from its documented behaviour, for a single
connection with no lock contention and no disk error.

Machine integers: a row id is a 64-bit signed integer inside the engine and is
read back through `sqlite3_column_int` into a C `int`; that conversion is
`wrapInt32`.  `nread` is a `uint16_t`; the conversion is `% 65536`.
-/

namespace Sparrow

/-! ## Constants -/

/-- `#define BUFSIZE 2000`: buffer for reading from the tun/tap interface. -/
def BUFSIZE : Nat := 2000

/-- `IFNAMSIZ` of `<net/if.h>` (Linux). -/
def IFNAMSIZ : Nat := 16

/-- The result codes of the SQLite C interface that the program can meet. -/
inductive Rc where
  | SQLITE_OK
  | SQLITE_ERROR
  | SQLITE_FULL
  | SQLITE_CANTOPEN
  | SQLITE_SCHEMA
  | SQLITE_ROW
  | SQLITE_DONE
  deriving DecidableEq, Repr

open Rc

/-! ## Data model -/

/-- One byte of a frame. -/
abbrev Byte := Fin 256

/-- A frame or blob: an uninterpreted byte sequence. -/
abbrev Blob := List Byte

/-- One row of `packets`: the implicit ROWID and the `data` column. -/
structure Row where
  rowid : Int
  data : Blob
  deriving DecidableEq, Repr

/-- Largest row id of an SQLite table, `2^63 - 1`. -/
def MAX_ROWID : Int := 9223372036854775807

/-- The database behind one `sqlite3 *db` handle.

* `packets`: the rows of table `packets` in the order a table scan visits them
  (ascending ROWID, the key order of the table b-tree); `none` when the
  database has no table of that name.
* `stale`: how many more times a statement compiled by the legacy
  `sqlite3_prepare` will be invalidated by a schema change that leaves
  `packets` alone; each one makes the statement do nothing and
  `sqlite3_finalize` return `SQLITE_SCHEMA`.
* `prng`: the values the engine's random generator will produce, drawn when a
  row id has to be chosen at random. -/
structure Db where
  packets : Option (List Row)
  stale : Nat
  prng : List Int
  deriving DecidableEq, Repr

/-- The rows of `packets`, none when the table is missing. -/
def Db.rows (db : Db) : List Row := db.packets.getD []

/-- Conversion of a 64-bit integer to a C `int` (two's complement, low 32 bits),
as done by `sqlite3_column_int`. -/
def wrapInt32 (v : Int) : Int := (v + 2147483648) % 4294967296 - 2147483648

/-! ## The SQLite engine, as far as the program uses it -/

/-- The SQL texts the program compiles with `sqlite3_prepare`. -/
inductive Sql where
  /-- The text `INSERT INTO packets(data) VALUES(?)`. -/
  | insertPacket
  /-- The text `SELECT ROWID, data from packets LIMIT 1`. -/
  | selectFirst
  /-- The text `DELETE FROM packets WHERE ROWID = ?`. -/
  | deleteRowid
  deriving DecidableEq, Repr

/-- A prepared statement: its text, the bound parameters, the code of the most
recent `sqlite3_step` and the current result row. An unbound blob parameter is
NULL, which reads back with zero bytes like the empty blob. -/
structure Stmt where
  sql : Sql
  blobArg : Blob
  intArg : Option Int
  lastRc : Rc
  row : Option Row
  deriving DecidableEq, Repr

/-- Insertion of a row at its place in ascending ROWID order. -/
def insertRow (r : Row) : List Row → List Row
  | [] => [r]
  | x :: xs => if r.rowid < x.rowid then r :: x :: xs else x :: insertRow r xs

/-- Up to `tries` random candidates `(x & (MAX_ROWID >> 1)) + 1`; the first one
not in use is taken. Returns the row id found and the generator left over. -/
def randomRowid (rows : List Row) : Nat → List Int → Option Int × List Int
  | 0, prng => (none, prng)
  | _ + 1, [] => (none, [])
  | tries + 1, x :: prng =>
    let v := x % 4611686018427387904 + 1
    if rows.any (fun r => r.rowid == v) then randomRowid rows tries prng else (some v, prng)

/-- Row id given to a new row of a table without AUTOINCREMENT: 1 in an empty
table, otherwise one more than the largest row id in use, and when that is
`MAX_ROWID` a random unused one (100 attempts). -/
def newRowid (rows : List Row) (prng : List Int) : Option Int × List Int :=
  match rows.getLast? with
  | none => (some 1, prng)
  | some r => if r.rowid < MAX_ROWID then (some (r.rowid + 1), prng) else randomRowid rows 100 prng

/-- The call `sqlite3_exec(db, "CREATE TABLE packets (data BLOB)", 0, 0, 0)`: an error
that changes nothing when the table exists (the text has no IF NOT EXISTS). -/
def sqlite3_exec_create (db : Db) : Rc × Db :=
  match db.packets with
  | some _ => (SQLITE_ERROR, db)
  | none => (SQLITE_OK, { db with packets := some [] })

/-- The call `sqlite3_prepare(db, zSql, -1, &pStmt, 0)` for one of the three statements
on `packets`: it fails with `SQLITE_ERROR` when the table does not exist. -/
def sqlite3_prepare (db : Db) (sql : Sql) : Rc × Option Stmt :=
  match db.packets with
  | none => (SQLITE_ERROR, none)
  | some _ => (SQLITE_OK, some { sql := sql, blobArg := [], intArg := none, lastRc := SQLITE_OK, row := none })

/-- The call `sqlite3_bind_blob(pStmt, 1, zBlob, nBlob, SQLITE_STATIC)`: the first `nBlob`
bytes at `zBlob`. -/
def sqlite3_bind_blob (stmt : Stmt) (zBlob : Blob) (nBlob : Nat) : Stmt :=
  { stmt with blobArg := zBlob.take nBlob }

/-- The call `sqlite3_bind_int(pStmt, 1, v)`. -/
def sqlite3_bind_int (stmt : Stmt) (v : Int) : Stmt :=
  { stmt with intArg := some v }

/-- The call `sqlite3_step(pStmt)`: runs the statement. A stale statement fails without
touching the table; its `sqlite3_finalize` will report `SQLITE_SCHEMA`. -/
def sqlite3_step (db : Db) (stmt : Stmt) : Rc × Stmt × Db :=
  match db.stale with
  | n + 1 => (SQLITE_ERROR, { stmt with lastRc := SQLITE_SCHEMA, row := none }, { db with stale := n })
  | 0 =>
    match stmt.sql with
    | Sql.insertPacket =>
      match newRowid db.rows db.prng with
      | (some v, prng) =>
        (SQLITE_DONE, { stmt with lastRc := SQLITE_OK, row := none },
          { db with packets := some (insertRow { rowid := v, data := stmt.blobArg } db.rows), prng := prng })
      | (none, prng) =>
        (SQLITE_FULL, { stmt with lastRc := SQLITE_FULL, row := none }, { db with prng := prng })
    | Sql.selectFirst =>
      match db.rows with
      | [] => (SQLITE_DONE, { stmt with lastRc := SQLITE_OK, row := none }, db)
      | r :: _ => (SQLITE_ROW, { stmt with lastRc := SQLITE_OK, row := some r }, db)
    | Sql.deleteRowid =>
      (SQLITE_DONE, { stmt with lastRc := SQLITE_OK, row := none },
        { db with packets := some (db.rows.filter (fun r => !(some r.rowid == stmt.intArg))) })

/-- The call `sqlite3_finalize(pStmt)`: the error of the most recent step, `SQLITE_OK`
when it had none. -/
def sqlite3_finalize (stmt : Stmt) : Rc := stmt.lastRc

/-- The call `sqlite3_column_int(pStmt, 0)`: the ROWID of the current row as a C `int`. -/
def sqlite3_column_int0 (stmt : Stmt) : Int :=
  match stmt.row with
  | some r => wrapInt32 r.rowid
  | none => 0

/-- The call `sqlite3_column_bytes(pStmt, 1)`: the size of `data` in the current row. -/
def sqlite3_column_bytes1 (stmt : Stmt) : Nat :=
  match stmt.row with
  | some r => r.data.length
  | none => 0

/-- The call `sqlite3_column_blob(pStmt, 1)`: the bytes of `data` in the current row. -/
def sqlite3_column_blob1 (stmt : Stmt) : Blob :=
  match stmt.row with
  | some r => r.data
  | none => []

/-! ## The store functions of `sparrow.cpp` -/

/-- Source `createBlobTable`. -/
def createBlobTable (db : Db) : Rc × Db :=
  sqlite3_exec_create db

/-- Source `writeBlob`; the first argument bounds the passes of the
`do ... while(rc == SQLITE_SCHEMA)` loop. -/
def writeBlobLoop : Nat → Db → Blob → Nat → Rc × Db
  | 0, db, _, _ => (SQLITE_SCHEMA, db)
  | fuel + 1, db, zBlob, nBlob =>
    match sqlite3_prepare db Sql.insertPacket with
    | (rc, none) => (rc, db)
    | (_, some pStmt) =>
      let pStmt := sqlite3_bind_blob pStmt zBlob nBlob
      let s := sqlite3_step db pStmt
      let rc := sqlite3_finalize s.2.1
      if rc = SQLITE_SCHEMA then writeBlobLoop fuel s.2.2 zBlob nBlob else (rc, s.2.2)

/-- Source `writeBlob(db, zBlob, nBlob)`. The loop runs one pass more than the
statement is invalidated. -/
def writeBlob (db : Db) (zBlob : Blob) (nBlob : Nat) : Rc × Db :=
  writeBlobLoop (db.stale + 1) db zBlob nBlob

/-- The three out-parameters of `readBlob`: `*pzBlob` (`none` is the null
pointer), `*pnBlob` and `*rowid`. -/
structure BlobOut where
  zBlob : Option Blob
  nBlob : Nat
  rowid : Int
  deriving DecidableEq, Repr

/-- Source `readBlob`, the loop after the out-parameters were zeroed. -/
def readBlobLoop : Nat → Db → BlobOut → Rc × BlobOut × Db
  | 0, db, out => (SQLITE_SCHEMA, out, db)
  | fuel + 1, db, out =>
    match sqlite3_prepare db Sql.selectFirst with
    | (rc, none) => (rc, out, db)
    | (_, some pStmt) =>
      let s := sqlite3_step db pStmt
      let out :=
        if s.1 = SQLITE_ROW then
          { rowid := sqlite3_column_int0 s.2.1,
            nBlob := sqlite3_column_bytes1 s.2.1,
            zBlob := some ((sqlite3_column_blob1 s.2.1).take (sqlite3_column_bytes1 s.2.1)) }
        else out
      let rc := sqlite3_finalize s.2.1
      if rc = SQLITE_SCHEMA then readBlobLoop fuel s.2.2 out else (rc, out, s.2.2)

/-- Source `readBlob(db, &zBlob, &nBlob, &rowid)`. -/
def readBlob (db : Db) : Rc × BlobOut × Db :=
  readBlobLoop (db.stale + 1) db { zBlob := none, nBlob := 0, rowid := 0 }

/-- Source `deleteBlob`, the loop. -/
def deleteBlobLoop : Nat → Db → Int → Rc × Db
  | 0, db, _ => (SQLITE_SCHEMA, db)
  | fuel + 1, db, rowid =>
    match sqlite3_prepare db Sql.deleteRowid with
    | (rc, none) => (rc, db)
    | (_, some pStmt) =>
      let pStmt := sqlite3_bind_int pStmt rowid
      let s := sqlite3_step db pStmt
      let rc := sqlite3_finalize s.2.1
      if rc = SQLITE_SCHEMA then deleteBlobLoop fuel s.2.2 rowid else (rc, s.2.2)

/-- Source `deleteBlob(db, rowid)`; `rowid` is a C `int`. -/
def deleteBlob (db : Db) (rowid : Int) : Rc × Db :=
  deleteBlobLoop (db.stale + 1) db rowid

/-! ## The environment of `main`: tun/tap device, standard error, command line -/

/-- The texts the program prints on the error stream. -/
inductive Msg where
  /-- The text of `usage()`. -/
  | usage
  /-- The text `Unknown option %c`. -/
  | unknownOption
  /-- The text `Too many options!`. -/
  | tooManyOptions
  /-- The text `Must specify interface name!`. -/
  | mustSpecifyInterface
  /-- The text `Can't open database: %s`. -/
  | cantOpenDatabase
  /-- The text `Error connecting to tun/tap interface %s!`. -/
  | errorConnecting
  /-- The text of `perror("Reading data")`. -/
  | readingData
  /-- The text of `perror("Writing data")`. -/
  | writingData
  deriving DecidableEq, Repr

/-- What the program does to the world outside, in the order it does it. -/
inductive Event where
  /-- A message on the error stream. -/
  | stderr (m : Msg)
  /-- The call `sqlite3_open(db_file, &db)`; `none` when `db_file` was never assigned. -/
  | sqliteOpen (db_file : Option (List Char))
  /-- The call `tun_alloc(if_name, flags | IFF_NO_PI)`; `tap` tells IFF_TAP from IFF_TUN. -/
  | tunAlloc (if_name : List Char) (tap : Bool)
  /-- A successful `write` of a frame to the interface. -/
  | tapWrite (frame : Blob)
  /-- A successful `read` of `n` bytes from the interface. -/
  | tapRead (n : Nat)
  /-- The call `writeBlob(db, zBlob, nread)` and the bytes it is given. -/
  | dbWrite (blob : Blob)
  /-- The call `deleteBlob(db, rowid)`. -/
  | dbDelete (rowid : Int)
  /-- The call `sqlite3_close(db)`. -/
  | sqliteClose
  deriving DecidableEq, Repr

/-- How a run ends, as far as it ends. -/
inductive Outcome where
  /-- The process ended with this status, by `exit` or by returning from `main`. -/
  | exited (status : Nat)
  /-- The program did something the language leaves undefined. -/
  | undefined
  /-- The process waits in `read` for a frame that never comes. -/
  | blocked
  /-- The loop is still running after the number of passes looked at. -/
  | running
  deriving DecidableEq, Repr

/-- The array `char buffer[BUFSIZE]` by index. Only the indices below `BUFSIZE`
exist; every write is checked against that bound. -/
abbrev Buffer := Nat → Byte

/-- The first `n` bytes of the buffer. -/
def Buffer.first (buffer : Buffer) (n : Nat) : Blob := (List.range n).map buffer

/-- The state the two loops of `main` work on.

* `rx`: what the coming calls of `read` on the interface return, `none` for an
  error (a negative result); when the list is used up no frame ever arrives.
* `txLeft`: how many calls of `write` succeed before one fails, `none` when
  none fails. -/
structure State where
  db : Db
  buffer : Buffer
  rx : List (Option Blob)
  txLeft : Option Nat
  trace : List Event

/-- One pass through the body of a `while(1)` loop. -/
inductive Step where
  /-- The body ran to its end. -/
  | next (s : State)
  /-- The body left the loop by `break`. -/
  | brk (s : State)
  /-- The body ended the run. -/
  | stop (o : Outcome) (s : State)

/-- Result of running a `while(1)` loop for a bounded number of passes. -/
inductive LoopResult where
  /-- The loop was left by `break`. -/
  | left (s : State)
  /-- The run ended inside the loop. -/
  | ended (o : Outcome) (s : State)
  /-- The passes looked at did not end the loop. -/
  | unfinished (s : State)

/-- The statement `while(1) { body }`, at most `fuel` passes of it. -/
def whileOne (body : State → Step) : Nat → State → LoopResult
  | 0, s => LoopResult.unfinished s
  | fuel + 1, s =>
    match body s with
    | Step.next s1 => whileOne body fuel s1
    | Step.brk s1 => LoopResult.left s1
    | Step.stop o s1 => LoopResult.ended o s1

/-- Source `cwrite(tap_fd, buffer, n)`: writes the first `n` bytes of the buffer to
the interface as one frame; on an error prints and calls `exit(1)`. -/
def cwrite (s : State) (n : Nat) : Except State State :=
  match s.txLeft with
  | some 0 => Except.error { s with trace := s.trace ++ [Event.stderr Msg.writingData] }
  | some (k + 1) =>
    Except.ok { s with txLeft := some k, trace := s.trace ++ [Event.tapWrite (s.buffer.first n)] }
  | none => Except.ok { s with trace := s.trace ++ [Event.tapWrite (s.buffer.first n)] }

/-- What `cread` can do. -/
inductive ReadResult where
  /-- The call `read` returned this many bytes, now at the start of the buffer. -/
  | got (nread : Nat) (s : State)
  /-- The call `read` failed: message, then `exit(1)`. -/
  | failed (s : State)
  /-- The call `read` never returns. -/
  | waits (s : State)

/-- The buffer after `read` stored `bytes` at its start. -/
def Buffer.store (buffer : Buffer) (bytes : Blob) : Buffer :=
  fun j => if j < bytes.length then bytes.getD j 0 else buffer j

/-- Source `cread(tap_fd, buffer, n)`: one `read` of at most `n` bytes; a frame longer
than `n` is cut to `n` bytes by the device. -/
def cread (s : State) (n : Nat) : ReadResult :=
  match s.rx with
  | [] => ReadResult.waits s
  | none :: rx => ReadResult.failed { s with rx := rx, trace := s.trace ++ [Event.stderr Msg.readingData] }
  | some bytes :: rx =>
    ReadResult.got (bytes.take n).length
      { s with rx := rx, buffer := s.buffer.store (bytes.take n),
               trace := s.trace ++ [Event.tapRead (bytes.take n).length] }

/-! ## The two loops of `main` -/

/-- The loop `for(int i = 0; i < nBlob; i++) buffer[i] = zBlob[i];` of the drain loop
from index `i` on, with `todo = nBlob - i` passes left. `none`: a write past the
end of `buffer`. -/
def copyLoop (zBlob : Blob) : Nat → Nat → Buffer → Option Buffer
  | 0, _, buffer => some buffer
  | todo + 1, i, buffer =>
    if i < BUFSIZE then copyLoop zBlob todo (i + 1) (Function.update buffer i (zBlob.getD i 0))
    else none

/-- Body of the loop under the comment `USB to TAP`. -/
def drainBody (s : State) : Step :=
  let r := readBlob s.db
  let zBlob := r.2.1.zBlob
  let nBlob := r.2.1.nBlob
  let rowid := r.2.1.rowid
  let s := { s with db := r.2.2 }
  if nBlob = 0 then Step.brk s
  else
    match copyLoop (zBlob.getD []) nBlob 0 s.buffer with
    | none => Step.stop Outcome.undefined s
    | some buffer =>
      match cwrite { s with buffer := buffer } nBlob with
      | Except.error s => Step.stop (Outcome.exited 1) s
      | Except.ok s =>
        let d := deleteBlob s.db rowid
        Step.next { s with db := d.2, trace := s.trace ++ [Event.dbDelete rowid] }

/-- The loop under the comment `USB to TAP`. -/
def drainLoop (fuel : Nat) (s : State) : LoopResult := whileOne drainBody fuel s

/-- Body of the loop under the comment `TAP to USB`. -/
def captureBody (s : State) : Step :=
  match cread s BUFSIZE with
  | ReadResult.waits s => Step.stop Outcome.blocked s
  | ReadResult.failed s => Step.stop (Outcome.exited 1) s
  | ReadResult.got n s =>
    let nread := n % 65536
    let zBlob := s.buffer.first nread
    let w := writeBlob s.db zBlob nread
    Step.next { s with db := w.2, trace := s.trace ++ [Event.dbWrite zBlob] }

/-- The loop under the comment `TAP to USB`. -/
def captureLoop (fuel : Nat) (s : State) : LoopResult := whileOne captureBody fuel s

/-! ## Command line -/

/-- The variables the option loop of `main` sets. `db_file` has no initial value. -/
structure Opts where
  debug : Bool
  if_name : List Char
  db_file : Option (List Char)
  tap : Bool
  deriving DecidableEq, Repr

/-- What one call of `getopt(argc, argv, "I:o:uahd")` returns: an option
character with its `optarg`, or `?`. -/
inductive Opt where
  | flag (c : Char)
  | withArg (c : Char) (optarg : List Char)
  | question
  deriving DecidableEq, Repr

/-- The option characters of one `argv` element after its `-`. When the element
ends in `I` or `o` the argument is the next element: that character is returned
apart. -/
def scanCluster : List Char → List Opt × Option Char
  | [] => ([], none)
  | c :: cs =>
    if c = 'u' ∨ c = 'a' ∨ c = 'h' ∨ c = 'd' then
      let r := scanCluster cs
      (Opt.flag c :: r.1, r.2)
    else if c = 'I' ∨ c = 'o' then
      match cs with
      | [] => ([], some c)
      | _ :: _ => ([Opt.withArg c cs], none)
    else
      let r := scanCluster cs
      (Opt.question :: r.1, r.2)

/-- All results of `getopt` over the arguments after `argv[0]` (GNU `getopt`: the
elements that are not options are skipped and counted, `--` ends the
options), with the number of elements left at `optind` when it returns -1. -/
def getoptAll : List (List Char) → List Opt × Nat
  | [] => ([], 0)
  | [a] =>
    match a with
    | '-' :: c :: cs =>
      if a = ['-', '-'] then ([], 0)
      else
        match scanCluster (c :: cs) with
        | (opts, none) => (opts, 0)
        | (opts, some _) => (opts ++ [Opt.question], 0)
    | _ => ([], 1)
  | a :: b :: rest =>
    match a with
    | '-' :: c :: cs =>
      if a = ['-', '-'] then ([], (b :: rest).length)
      else
        match scanCluster (c :: cs) with
        | (opts, none) => let r := getoptAll (b :: rest); (opts ++ r.1, r.2)
        | (opts, some o) => let r := getoptAll rest; (opts ++ Opt.withArg o b :: r.1, r.2)
    | _ => let r := getoptAll (b :: rest); (r.1, r.2 + 1)

/-- Source `usage()`: the usage text on the error stream, then `exit(1)`. -/
def usage (trace : List Event) : Outcome × List Event :=
  (Outcome.exited 1, trace ++ [Event.stderr Msg.usage])

/-- The `switch(option)` of `main` over the results of `getopt`, until one of
them ends the run. -/
def optionLoop : List Opt → Opts → List Event → Except (Outcome × List Event) Opts
  | [], o, _ => Except.ok o
  | Opt.flag c :: rest, o, trace =>
    if c = 'd' then optionLoop rest { o with debug := true } trace
    else if c = 'h' then Except.error (usage trace)
    else if c = 'u' then optionLoop rest { o with tap := false } trace
    else if c = 'a' then optionLoop rest { o with tap := true } trace
    else Except.error (usage (trace ++ [Event.stderr Msg.unknownOption]))
  | Opt.withArg c optarg :: rest, o, trace =>
    if c = 'I' then optionLoop rest { o with if_name := optarg.take (IFNAMSIZ - 1) } trace
    else if c = 'o' then optionLoop rest { o with db_file := some optarg } trace
    else Except.error (usage (trace ++ [Event.stderr Msg.unknownOption]))
  | Opt.question :: _, _, trace =>
    Except.error (usage (trace ++ [Event.stderr Msg.unknownOption]))

/-- Lines 248 to 288 of `main`: option loop and the two checks after it. -/
def checkOptions (argv : List (List Char)) : Except (Outcome × List Event) Opts :=
  let g := getoptAll argv.tail
  match optionLoop g.1 { debug := false, if_name := [], db_file := none, tap := false } [] with
  | Except.error e => Except.error e
  | Except.ok o =>
    if g.2 > 0 then Except.error (usage [Event.stderr Msg.tooManyOptions])
    else if o.if_name = [] then Except.error (usage [Event.stderr Msg.mustSpecifyInterface])
    else Except.ok o

/-! ## `main` -/

/-- The call `sqlite3_open(db_file, &db)`. The argument is what the path holds: `none`
when it cannot be opened or created, otherwise a database (one without tables
when there was no file, which `sqlite3_open` then creates). -/
def sqlite3_open (file : Option Db) : Rc × Option Db :=
  match file with
  | none => (SQLITE_CANTOPEN, none)
  | some db => (SQLITE_OK, some db)

/-- Lines 290 and 291 of `main`: `rc = sqlite3_open(db_file, &db); createBlobTable(db);`.
The result of `createBlobTable` is dropped; on a handle that failed to open it
does nothing. -/
def openStore (file : Option Db) : Rc × Option Db :=
  let r := sqlite3_open file
  (r.1, r.2.map (fun db => (createBlobTable db).2))

/-- What `main` meets outside the command line. -/
structure Env where
  file : Option Db
  tunOk : Bool
  buffer : Buffer
  rx : List (Option Blob)
  txLeft : Option Nat

/-- A run of `main`: how it ended, what it did, and the database at that point. -/
structure Run where
  outcome : Outcome
  trace : List Event
  db : Option Db

/-- Source `main`, with bounds on the passes of its two loops. The debug output
of `do_debug`, the texts on `std::cout` and the wait for the enter key
(`std::cin.ignore()`) are left out: they change none of the variables. -/
def main (argv : List (List Char)) (env : Env) (fuelDrain fuelCapture : Nat) : Run :=
  match checkOptions argv with
  | Except.error e => { outcome := e.1, trace := e.2, db := none }
  | Except.ok o =>
    match o.db_file with
    | none => { outcome := Outcome.undefined, trace := [Event.sqliteOpen none], db := none }
    | some path =>
      let r := openStore env.file
      let trace := [Event.sqliteOpen (some path)]
      match r.1, r.2 with
      | SQLITE_OK, some db =>
        if env.tunOk then
          let s : State :=
            { db := db, buffer := env.buffer, rx := env.rx, txLeft := env.txLeft,
              trace := trace ++ [Event.tunAlloc o.if_name o.tap] }
          match drainLoop fuelDrain s with
          | LoopResult.ended oc s => { outcome := oc, trace := s.trace, db := some s.db }
          | LoopResult.unfinished s => { outcome := Outcome.running, trace := s.trace, db := some s.db }
          | LoopResult.left s =>
            match captureLoop fuelCapture s with
            | LoopResult.ended oc s => { outcome := oc, trace := s.trace, db := some s.db }
            | LoopResult.unfinished s =>
              { outcome := Outcome.running, trace := s.trace, db := some s.db }
            | LoopResult.left s =>
              { outcome := Outcome.exited 0, trace := s.trace ++ [Event.sqliteClose], db := some s.db }
        else
          { outcome := Outcome.exited 1,
            trace := trace ++ [Event.tunAlloc o.if_name o.tap, Event.stderr Msg.errorConnecting],
            db := some db }
      | _, h =>
        { outcome := Outcome.exited 1,
          trace := trace ++ [Event.stderr Msg.cantOpenDatabase, Event.sqliteClose], db := h }

/-! ## Notions used to state the properties -/

/-- The rows are in strictly ascending ROWID order: what a table scan of an SQLite
table always yields, since the ROWID is the unique key of the table. -/
def RowsAscending (rows : List Row) : Prop :=
  rows.Pairwise (fun a b => a.rowid < b.rowid)

instance (rows : List Row) : Decidable (RowsAscending rows) := by
  unfold RowsAscending; infer_instance

/-- The value is one a C `int` can hold. -/
def FitsInt (v : Int) : Prop := -2147483648 ≤ v ∧ v < 2147483648

instance (v : Int) : Decidable (FitsInt v) := by
  unfold FitsInt; infer_instance

/-- Enqueueing the frames in order, each by `writeBlob(db, frame, length)`. -/
def enqueueAll (db : Db) (frames : List Blob) : Db :=
  frames.foldl (fun d f => (writeBlob d f f.length).2) db

/-- The frames handed to the interface, in order. -/
def framesWritten : List Event → List Blob
  | [] => []
  | Event.tapWrite f :: es => f :: framesWritten es
  | _ :: es => framesWritten es

/-- The state a loop was in when it ended or when the passes ran out. -/
def LoopResult.state : LoopResult → State
  | LoopResult.left s => s
  | LoopResult.ended _ s => s
  | LoopResult.unfinished s => s

/-- The loop was left by `break`. -/
def LoopResult.isLeft : LoopResult → Bool
  | LoopResult.left _ => true
  | _ => false

/-- The passes looked at did not end the loop. -/
def LoopResult.isUnfinished : LoopResult → Bool
  | LoopResult.unfinished _ => true
  | _ => false

/-- The way the run ended inside the loop, if it did. -/
def LoopResult.outcome : LoopResult → Option Outcome
  | LoopResult.ended o _ => some o
  | _ => none

/-- The rows with the frames as data and the row ids `k + 1`, `k + 2`, and so on. -/
def numbered : Nat → List Blob → List Row
  | _, [] => []
  | k, f :: fs => { rowid := (k : Int) + 1, data := f } :: numbered (k + 1) fs

/-- The events of draining these rows one after the other: each is written to
the interface, then deleted. -/
def drainEvents : List Row → List Event
  | [] => []
  | r :: rs => Event.tapWrite r.data :: Event.dbDelete r.rowid :: drainEvents rs

/-- An operation on the store. -/
inductive Op where
  /-- The call `writeBlob` with this frame. -/
  | enqueue (frame : Blob)
  /-- The call `deleteBlob` with this id. -/
  | remove (rowid : Int)
  deriving DecidableEq, Repr

/-- The store after one operation. -/
def applyOp (db : Db) : Op → Db
  | Op.enqueue f => (writeBlob db f f.length).2
  | Op.remove v => (deleteBlob db v).2

/-- The store after the operations in order. -/
def applyOps (db : Db) (ops : List Op) : Db := ops.foldl applyOp db

/-- A state of the loops with this database, a zeroed buffer, no frame to come
from the interface and no failing write. -/
def stateOf (db : Db) : State :=
  { db := db, buffer := fun _ => 0, rx := [], txLeft := none, trace := [] }

/-- A database with an empty table `packets`. -/
def emptyStore : Db := { packets := some [], stale := 0, prng := [] }

/-- The event is a read from the interface or an enqueue into the store. -/
def Event.capture : Event → Bool
  | Event.tapRead _ => true
  | Event.dbWrite _ => true
  | _ => false

/-- The event is a message on the error stream. -/
def Event.isStderr : Event → Bool
  | Event.stderr _ => true
  | _ => false

/-- A state of the loops with this database and these results of `read` to come,
a zeroed buffer and no failing write. -/
def stateRx (db : Db) (rx : List (Option Blob)) : State :=
  { db := db, buffer := fun _ => 0, rx := rx, txLeft := none, trace := [] }

/-- A database file without any table, as `sqlite3_open` creates it. -/
def freshFile : Db := { packets := none, stale := 0, prng := [] }

/-! ## Closed forms of the store functions -/

/-- The database once no statement is stale any more. -/
def Db.settled (db : Db) : Db := { db with stale := 0 }

/-- What `writeBlob` amounts to. -/
def writeBlobSpec (db : Db) (zBlob : Blob) (nBlob : Nat) : Rc × Db :=
  match db.packets with
  | none => (SQLITE_ERROR, db)
  | some rows =>
    match newRowid rows db.prng with
    | (some v, prng) =>
      (SQLITE_OK, { packets := some (insertRow { rowid := v, data := zBlob.take nBlob } rows),
                    stale := 0, prng := prng })
    | (none, prng) => (SQLITE_FULL, { packets := some rows, stale := 0, prng := prng })

/-- What `readBlob` amounts to. -/
def readBlobSpec (db : Db) : Rc × BlobOut × Db :=
  match db.packets with
  | none => (SQLITE_ERROR, { zBlob := none, nBlob := 0, rowid := 0 }, db)
  | some [] => (SQLITE_OK, { zBlob := none, nBlob := 0, rowid := 0 }, db.settled)
  | some (r :: _) =>
    (SQLITE_OK, { zBlob := some r.data, nBlob := r.data.length, rowid := wrapInt32 r.rowid },
      db.settled)

/-- What `deleteBlob` amounts to. -/
def deleteBlobSpec (db : Db) (rowid : Int) : Rc × Db :=
  match db.packets with
  | none => (SQLITE_ERROR, db)
  | some rows =>
    (SQLITE_OK, { packets := some (rows.filter (fun r => !(r.rowid == rowid))),
                  stale := 0, prng := db.prng })

theorem writeBlobLoop_eq (zBlob : Blob) (nBlob : Nat) :
    ∀ (n : Nat) (db : Db), db.stale = n →
      writeBlobLoop (n + 1) db zBlob nBlob = writeBlobSpec db zBlob nBlob := by
  intro n
  induction n with
  | zero =>
    intro db h
    obtain ⟨packets, stale, prng⟩ := db
    simp only at h
    subst h
    cases packets with
    | none => simp [writeBlobLoop, writeBlobSpec, sqlite3_prepare]
    | some rows =>
      simp only [writeBlobLoop, writeBlobSpec, sqlite3_prepare, sqlite3_bind_blob, sqlite3_step,
        sqlite3_finalize, Db.rows, Option.getD]
      rcases hnr : newRowid rows prng with ⟨_ | v, p⟩ <;> simp
  | succ n ih =>
    intro db h
    obtain ⟨packets, stale, prng⟩ := db
    simp only at h
    subst h
    cases packets with
    | none => simp [writeBlobLoop, writeBlobSpec, sqlite3_prepare]
    | some rows =>
      have := ih { packets := some rows, stale := n, prng := prng } rfl
      rw [writeBlobLoop]
      simp only [sqlite3_prepare, sqlite3_bind_blob, sqlite3_step, sqlite3_finalize, if_true]
      rw [this]
      simp [writeBlobSpec]

theorem writeBlob_eq (db : Db) (zBlob : Blob) (nBlob : Nat) :
    writeBlob db zBlob nBlob = writeBlobSpec db zBlob nBlob :=
  writeBlobLoop_eq zBlob nBlob db.stale db rfl

theorem readBlobLoop_eq :
    ∀ (n : Nat) (db : Db), db.stale = n →
      readBlobLoop (n + 1) db { zBlob := none, nBlob := 0, rowid := 0 } = readBlobSpec db := by
  intro n
  induction n with
  | zero =>
    intro db h
    obtain ⟨packets, stale, prng⟩ := db
    simp only at h
    subst h
    rcases packets with _ | _ | ⟨r, rs⟩ <;>
      simp [readBlobLoop, readBlobSpec, sqlite3_prepare, sqlite3_step, sqlite3_finalize, Db.rows,
        Db.settled, sqlite3_column_int0, sqlite3_column_bytes1, sqlite3_column_blob1]
  | succ n ih =>
    intro db h
    obtain ⟨packets, stale, prng⟩ := db
    simp only at h
    subst h
    cases packets with
    | none => simp [readBlobLoop, readBlobSpec, sqlite3_prepare]
    | some rows =>
      have := ih { packets := some rows, stale := n, prng := prng } rfl
      rw [readBlobLoop]
      simp only [sqlite3_prepare, sqlite3_step, sqlite3_finalize, if_true]
      simp only [show (SQLITE_ERROR = SQLITE_ROW) = False by simp, if_false]
      rw [this]
      cases rows <;> simp [readBlobSpec, Db.settled]

theorem readBlob_eq (db : Db) : readBlob db = readBlobSpec db :=
  readBlobLoop_eq db.stale db rfl

theorem deleteBlobLoop_eq (rowid : Int) :
    ∀ (n : Nat) (db : Db), db.stale = n →
      deleteBlobLoop (n + 1) db rowid = deleteBlobSpec db rowid := by
  intro n
  induction n with
  | zero =>
    intro db h
    obtain ⟨packets, stale, prng⟩ := db
    simp only at h
    subst h
    cases packets <;>
      simp [deleteBlobLoop, deleteBlobSpec, sqlite3_prepare, sqlite3_bind_int, sqlite3_step,
        sqlite3_finalize, Db.rows]
  | succ n ih =>
    intro db h
    obtain ⟨packets, stale, prng⟩ := db
    simp only at h
    subst h
    cases packets with
    | none => simp [deleteBlobLoop, deleteBlobSpec, sqlite3_prepare]
    | some rows =>
      have := ih { packets := some rows, stale := n, prng := prng } rfl
      rw [deleteBlobLoop]
      simp only [sqlite3_prepare, sqlite3_bind_int, sqlite3_step, sqlite3_finalize, if_true]
      rw [this]
      simp [deleteBlobSpec]

theorem deleteBlob_eq (db : Db) (rowid : Int) : deleteBlob db rowid = deleteBlobSpec db rowid :=
  deleteBlobLoop_eq rowid db.stale db rfl

/-! ## Basic facts -/

theorem wrapInt32_of_fits (v : Int) (h : FitsInt v) : wrapInt32 v = v := by
  unfold FitsInt at h
  unfold wrapInt32
  omega

theorem filter_head_ascending (r : Row) (rest : List Row) (h : RowsAscending (r :: rest)) :
    (r :: rest).filter (fun x => !(x.rowid == r.rowid)) = rest := by
  unfold RowsAscending at h
  rw [List.pairwise_cons] at h
  have h1 : (fun x : Row => !(x.rowid == r.rowid)) r = false := by simp
  rw [List.filter_cons_of_neg (by simp)]
  rw [List.filter_eq_self]
  intro a ha
  have := h.1 a ha
  simp
  omega

theorem range_map_getD (z : Blob) : (List.range z.length).map (fun j => z.getD j 0) = z := by
  apply List.ext_getElem
  · simp
  · intro n h1 h2
    simp [List.getD_eq_getElem?_getD, List.getElem?_eq_getElem h2]

theorem first_congr (b1 b2 : Buffer) (n : Nat) (h : ∀ j, j < n → b1 j = b2 j) :
    b1.first n = b2.first n := by
  unfold Buffer.first
  apply List.map_congr_left
  intro j hj
  exact h j (List.mem_range.mp hj)

theorem copyLoop_ok (z : Blob) :
    ∀ (todo i : Nat) (buf : Buffer), i + todo ≤ BUFSIZE →
      ∃ buf1, copyLoop z todo i buf = some buf1 ∧
        (∀ j, i ≤ j → j < i + todo → buf1 j = z.getD j 0) ∧ (∀ j, j < i → buf1 j = buf j) := by
  intro todo
  induction todo with
  | zero =>
    intro i buf _
    exact ⟨buf, rfl, fun j h1 h2 => by omega, fun _ _ => rfl⟩
  | succ n ih =>
    intro i buf h
    have hi : i < BUFSIZE := by omega
    obtain ⟨buf1, h1, h2, h3⟩ := ih (i + 1) (Function.update buf i (z.getD i 0)) (by omega)
    refine ⟨buf1, ?_, ?_, ?_⟩
    · simp only [copyLoop, hi, if_true]
      exact h1
    · intro j hj1 hj2
      by_cases hji : j = i
      · subst hji
        rw [h3 j (by omega)]
        simp
      · exact h2 j (by omega) (by omega)
    · intro j hj
      rw [h3 j (by omega)]
      simp [Function.update, Nat.ne_of_lt hj]

theorem copyLoop_past_end (z : Blob) :
    ∀ (todo i : Nat) (buf : Buffer), i ≤ BUFSIZE → BUFSIZE < i + todo →
      copyLoop z todo i buf = none := by
  intro todo
  induction todo with
  | zero => intro i buf h1 h2; omega
  | succ n ih =>
    intro i buf h1 h2
    by_cases hi : i < BUFSIZE
    · simp only [copyLoop, hi, if_true]
      exact ih (i + 1) _ (by omega) (by omega)
    · simp [copyLoop, hi]

theorem copyLoop_first (z : Blob) (buf : Buffer) (h : z.length ≤ BUFSIZE) :
    ∃ buf1, copyLoop z z.length 0 buf = some buf1 ∧ buf1.first z.length = z := by
  obtain ⟨buf1, h1, h2, _⟩ := copyLoop_ok z z.length 0 buf (by omega)
  refine ⟨buf1, h1, ?_⟩
  have : buf1.first z.length = (List.range z.length).map (fun j => z.getD j 0) := by
    unfold Buffer.first
    apply List.map_congr_left
    intro j hj
    exact h2 j (by omega) (by simpa using List.mem_range.mp hj)
  rw [this, range_map_getD]

theorem store_first (buf : Buffer) (b : Blob) : (buf.store b).first b.length = b := by
  have : (buf.store b).first b.length = (List.range b.length).map (fun j => b.getD j 0) := by
    unfold Buffer.first Buffer.store
    apply List.map_congr_left
    intro j hj
    simp [List.mem_range.mp hj]
  rw [this, range_map_getD]

/-! ## One pass of the drain loop -/

theorem drainBody_missing (s : State) (hp : s.db.packets = none) :
    drainBody s = Step.brk s := by
  simp [drainBody, readBlob_eq, readBlobSpec, hp]

theorem drainBody_nil (s : State) (hp : s.db.packets = some []) :
    drainBody s = Step.brk { s with db := s.db.settled } := by
  simp [drainBody, readBlob_eq, readBlobSpec, hp]

theorem drainBody_zero_length (s : State) (r : Row) (rest : List Row)
    (hp : s.db.packets = some (r :: rest)) (hz : r.data = []) :
    drainBody s = Step.brk { s with db := s.db.settled } := by
  simp [drainBody, readBlob_eq, readBlobSpec, hp, hz]

theorem drainBody_too_long (s : State) (r : Row) (rest : List Row)
    (hp : s.db.packets = some (r :: rest)) (hlen : BUFSIZE < r.data.length) :
    drainBody s = Step.stop Outcome.undefined { s with db := s.db.settled } := by
  have hne : r.data.length ≠ 0 := by omega
  have hc := copyLoop_past_end r.data r.data.length 0 s.buffer (by omega) (by omega)
  simp [drainBody, readBlob_eq, readBlobSpec, hp, hne, hc]

theorem drainBody_write_fails (s : State) (r : Row) (rest : List Row)
    (hp : s.db.packets = some (r :: rest)) (hne : r.data ≠ [])
    (hlen : r.data.length ≤ BUFSIZE) (htx : s.txLeft = some 0) :
    ∃ s1, drainBody s = Step.stop (Outcome.exited 1) s1 ∧ s1.rx = s.rx ∧
      s1.trace = s.trace ++ [Event.stderr Msg.writingData] := by
  have hne1 : r.data.length ≠ 0 := by simpa using hne
  obtain ⟨buf1, hc, _⟩ := copyLoop_first r.data s.buffer hlen
  simp [drainBody, readBlob_eq, readBlobSpec, hp, hne1, hc, cwrite, htx]

theorem drainBody_frame (s : State) (r : Row) (rest : List Row)
    (hp : s.db.packets = some (r :: rest)) (hne : r.data ≠ [])
    (hlen : r.data.length ≤ BUFSIZE) (htx : s.txLeft ≠ some 0) :
    ∃ s1, drainBody s = Step.next s1 ∧
      s1.db.packets
        = some ((r :: rest).filter (fun x => !(x.rowid == wrapInt32 r.rowid))) ∧
      s1.rx = s.rx ∧ (s.txLeft = none → s1.txLeft = none) ∧
      s1.trace = s.trace ++ [Event.tapWrite r.data, Event.dbDelete (wrapInt32 r.rowid)] := by
  have hne1 : r.data.length ≠ 0 := by simpa using hne
  obtain ⟨buf1, hc, hf⟩ := copyLoop_first r.data s.buffer hlen
  rcases htxv : s.txLeft with _ | _ | k
  · simp [drainBody, readBlob_eq, readBlobSpec, hp, hne1, hc, cwrite, htxv, hf, deleteBlob_eq,
      deleteBlobSpec, Db.settled]
  · exact absurd htxv htx
  · simp [drainBody, readBlob_eq, readBlobSpec, hp, hne1, hc, cwrite, htxv, hf, deleteBlob_eq,
      deleteBlobSpec, Db.settled]

/-! ## One pass of the capture loop -/

theorem captureBody_got (s : State) (bytes : Blob) (rest : List (Option Blob))
    (hrx : s.rx = some bytes :: rest) :
    captureBody s = Step.next
      { db := (writeBlob s.db (bytes.take BUFSIZE) (bytes.take BUFSIZE).length).2,
        buffer := s.buffer.store (bytes.take BUFSIZE),
        rx := rest,
        txLeft := s.txLeft,
        trace := s.trace ++ [Event.tapRead (bytes.take BUFSIZE).length,
                             Event.dbWrite (bytes.take BUFSIZE)] } := by
  have hlen : (bytes.take BUFSIZE).length ≤ BUFSIZE := by simp
  have hmod : (bytes.take BUFSIZE).length % 65536 = (bytes.take BUFSIZE).length := by
    apply Nat.mod_eq_of_lt
    have hB : BUFSIZE = 2000 := rfl
    omega
  simp only [captureBody, cread, hrx, hmod, store_first]
  simp

/-! ## The drain loop over a run of rows -/

theorem drainLoop_prefix (rest : List Row) :
    ∀ (rows : List Row) (s : State) (fuel : Nat),
      s.db.packets = some (rows ++ rest) → RowsAscending (rows ++ rest) →
      (∀ r ∈ rows, r.data ≠ [] ∧ r.data.length ≤ BUFSIZE ∧ FitsInt r.rowid) →
      s.txLeft = none →
      ∃ s1, drainLoop (rows.length + fuel) s = drainLoop fuel s1 ∧
        s1.db.packets = some rest ∧ s1.rx = s.rx ∧ s1.txLeft = none ∧
        s1.trace = s.trace ++ drainEvents rows := by
  intro rows
  induction rows with
  | nil =>
    intro s fuel hp _ _ htx
    exact ⟨s, by simp, by simpa using hp, rfl, htx, by simp [drainEvents]⟩
  | cons r rows ih =>
    intro s fuel hp hasc hrows htx
    have hr := hrows r (List.mem_cons_self _ _)
    obtain ⟨s1, hb, hp1, hrx1, htx1, htr1⟩ :=
      drainBody_frame s r (rows ++ rest) (by simpa using hp) hr.1 hr.2.1 (by simp [htx])
    rw [wrapInt32_of_fits _ hr.2.2] at hp1 htr1
    rw [filter_head_ascending r (rows ++ rest) (by simpa using hasc)] at hp1
    have hasc1 : RowsAscending (rows ++ rest) := by
      unfold RowsAscending at hasc ⊢
      simp only [List.cons_append, List.pairwise_cons] at hasc
      exact hasc.2
    obtain ⟨s2, hl, hp2, hrx2, htx2, htr2⟩ :=
      ih s1 fuel hp1 hasc1 (fun x hx => hrows x (List.mem_cons_of_mem _ hx)) (htx1 htx)
    refine ⟨s2, ?_, hp2, by rw [hrx2, hrx1], htx2, ?_⟩
    · have : (r :: rows).length + fuel = (rows.length + fuel) + 1 := by simp; omega
      rw [this]
      show whileOne drainBody (rows.length + fuel + 1) s = _
      rw [whileOne, hb]
      exact hl
    · rw [htr2, htr1]
      simp [drainEvents]

theorem drainLoop_done (s : State) (rest : List Row) (fuel : Nat)
    (hp : s.db.packets = some rest) (hz : ∀ r ∈ rest.head?, r.data = []) :
    drainLoop (fuel + 1) s = LoopResult.left { s with db := s.db.settled } := by
  cases rest with
  | nil =>
    show whileOne drainBody (fuel + 1) s = _
    rw [whileOne, drainBody_nil s hp]
  | cons r rest =>
    show whileOne drainBody (fuel + 1) s = _
    rw [whileOne, drainBody_zero_length s r rest hp (hz r (by simp))]

theorem drainLoop_stuck (r : Row) (rest : List Row) (hne : r.data ≠ [])
    (hlen : r.data.length ≤ BUFSIZE)
    (hid : ∀ x ∈ r :: rest, x.rowid ≠ wrapInt32 r.rowid) :
    ∀ (fuel : Nat) (s : State), s.db.packets = some (r :: rest) → s.txLeft = none →
      (drainLoop fuel s).isUnfinished = true := by
  intro fuel
  induction fuel with
  | zero => intro s _ _; rfl
  | succ n ih =>
    intro s hp htx
    obtain ⟨s1, hb, hp1, _, htx1, _⟩ := drainBody_frame s r rest hp hne hlen (by simp [htx])
    rw [List.filter_eq_self.mpr (fun x hx => by simpa using hid x hx)] at hp1
    show (whileOne drainBody (n + 1) s).isUnfinished = true
    rw [whileOne, hb]
    exact ih s1 hp1 (htx1 htx)

/-! ## Row ids of frames enqueued into an empty table -/

theorem numbered_append (f : Blob) :
    ∀ (pre : List Blob) (k : Nat),
      numbered k (pre ++ [f])
        = numbered k pre ++ [{ rowid := ((k + pre.length : Nat) : Int) + 1, data := f }] := by
  intro pre
  induction pre with
  | nil => intro k; simp [numbered]
  | cons g pre ih =>
    intro k
    have e : k + 1 + pre.length = k + (pre.length + 1) := by omega
    have := ih (k + 1)
    rw [e] at this
    show _ :: numbered (k + 1) (pre ++ [f]) = _
    rw [this]
    simp [numbered]

theorem numbered_app :
    ∀ (pre post : List Blob) (k : Nat),
      numbered k (pre ++ post) = numbered k pre ++ numbered (k + pre.length) post := by
  intro pre
  induction pre with
  | nil => intro post k; simp [numbered]
  | cons g pre ih =>
    intro post k
    have e : k + 1 + pre.length = k + (pre.length + 1) := by omega
    have := ih post (k + 1)
    rw [e] at this
    show _ :: numbered (k + 1) (pre ++ post) = _
    rw [this]
    simp [numbered]

theorem length_numbered : ∀ (fs : List Blob) (k : Nat), (numbered k fs).length = fs.length := by
  intro fs
  induction fs with
  | nil => intro k; rfl
  | cons f fs ih => intro k; simp [numbered, ih]

theorem mem_numbered :
    ∀ (fs : List Blob) (k : Nat) (r : Row), r ∈ numbered k fs →
      (k : Int) + 1 ≤ r.rowid ∧ r.rowid ≤ (k : Int) + fs.length ∧ r.data ∈ fs := by
  intro fs
  induction fs with
  | nil => intro k r h; simp [numbered] at h
  | cons f fs ih =>
    intro k r h
    simp only [numbered, List.mem_cons] at h
    rcases h with h | h
    · subst h
      simp
    · have := ih (k + 1) r h
      simp only [List.length_cons, List.mem_cons]
      push_cast at this ⊢
      refine ⟨by omega, by omega, Or.inr this.2.2⟩

theorem ascending_numbered : ∀ (fs : List Blob) (k : Nat), RowsAscending (numbered k fs) := by
  intro fs
  induction fs with
  | nil => intro k; simp [numbered, RowsAscending]
  | cons f fs ih =>
    intro k
    unfold RowsAscending
    simp only [numbered, List.pairwise_cons]
    refine ⟨?_, ih (k + 1)⟩
    intro r hr
    have := mem_numbered fs (k + 1) r hr
    push_cast at this
    show (k : Int) + 1 < r.rowid
    omega

theorem insertRow_append (r : Row) :
    ∀ rows : List Row, (∀ x ∈ rows, x.rowid < r.rowid) → insertRow r rows = rows ++ [r] := by
  intro rows
  induction rows with
  | nil => intro _; rfl
  | cons x xs ih =>
    intro h
    have hx := h x (List.mem_cons_self _ _)
    have : ¬ r.rowid < x.rowid := by omega
    simp [insertRow, this, ih (fun y hy => h y (List.mem_cons_of_mem _ hy))]

theorem newRowid_numbered (pre : List Blob) (prng : List Int)
    (h : (pre.length : Int) < MAX_ROWID) :
    newRowid (numbered 0 pre) prng = (some ((pre.length : Int) + 1), prng) := by
  rcases List.eq_nil_or_concat pre with hnil | ⟨init, f, hc⟩
  · subst hnil
    simp [newRowid, numbered]
  · subst hc
    rw [List.concat_eq_append] at h ⊢
    rw [numbered_append]
    simp only [newRowid, List.getLast?_append, List.getLast?_singleton, Option.or]
    simp only [List.length_append, List.length_singleton] at h ⊢
    push_cast at h ⊢
    simp only [zero_add]
    rw [if_pos h]

theorem writeBlob_numbered (db : Db) (pre : List Blob) (f : Blob)
    (hp : db.packets = some (numbered 0 pre)) (h : (pre.length : Int) < MAX_ROWID) :
    writeBlob db f f.length
      = (SQLITE_OK, { packets := some (numbered 0 (pre ++ [f])), stale := 0, prng := db.prng }) := by
  rw [writeBlob_eq]
  simp only [writeBlobSpec, hp, newRowid_numbered pre db.prng h, List.take_length]
  rw [insertRow_append, numbered_append]
  · simp
  · intro x hx
    have := mem_numbered pre 0 x hx
    simp only
    push_cast at this
    omega

theorem enqueueAll_numbered :
    ∀ (frames pre : List Blob) (db : Db), db.packets = some (numbered 0 pre) →
      ((pre.length + frames.length : Nat) : Int) ≤ MAX_ROWID →
      (enqueueAll db frames).packets = some (numbered 0 (pre ++ frames)) := by
  intro frames
  induction frames with
  | nil => intro pre db hp _; simpa [enqueueAll] using hp
  | cons f fs ih =>
    intro pre db hp h
    simp only [List.length_cons] at h
    push_cast at h
    have hw := writeBlob_numbered db pre f hp (by omega)
    have := ih (pre ++ [f]) (writeBlob db f f.length).2 (by rw [hw]) (by
      simp only [List.length_append, List.length_singleton]; push_cast; omega)
    simpa [enqueueAll] using this

theorem enqueueAll_empty (db : Db) (frames : List Blob) (hp : db.packets = some [])
    (h : (frames.length : Int) ≤ MAX_ROWID) :
    (enqueueAll db frames).packets = some (numbered 0 frames) := by
  have := enqueueAll_numbered frames [] db (by simpa [numbered] using hp) (by simpa using h)
  simpa using this

/-! ## Frames seen on the interface -/

theorem framesWritten_append :
    ∀ a b : List Event, framesWritten (a ++ b) = framesWritten a ++ framesWritten b := by
  intro a
  induction a with
  | nil => intro b; rfl
  | cons e es ih =>
    intro b
    cases e <;> simp [framesWritten, ih]

theorem framesWritten_drainEvents :
    ∀ rows : List Row, framesWritten (drainEvents rows) = rows.map (fun r => r.data) := by
  intro rows
  induction rows with
  | nil => rfl
  | cons r rs ih => simp [drainEvents, framesWritten, ih]

theorem map_data_numbered :
    ∀ (fs : List Blob) (k : Nat), (numbered k fs).map (fun r => r.data) = fs := by
  intro fs
  induction fs with
  | nil => intro k; rfl
  | cons f fs ih => intro k; simp [numbered, ih]

theorem whileOne_unfinished_mono (body : State → Step) (k : Nat) :
    ∀ (fuel : Nat) (s : State), (whileOne body (fuel + k) s).isUnfinished = true →
      (whileOne body fuel s).isUnfinished = true := by
  intro fuel
  induction fuel with
  | zero => intro s _; rfl
  | succ n ih =>
    intro s h
    have e : n + 1 + k = (n + k) + 1 := by omega
    rw [e, whileOne] at h
    rw [whileOne]
    cases hb : body s with
    | next s1 => rw [hb] at h; exact ih s1 h
    | brk s1 => rw [hb] at h; exact h
    | stop o s1 => rw [hb] at h; exact h

theorem numbered_fits (frames : List Blob) (h : frames.length < 2147483648) :
    ∀ r ∈ numbered 0 frames, FitsInt r.rowid := by
  intro r hr
  have := mem_numbered frames 0 r hr
  unfold FitsInt
  push_cast at this
  omega

theorem stateOf_db (db : Db) : (stateOf db).db = db := rfl

theorem stateOf_txLeft (db : Db) : (stateOf db).txLeft = none := rfl

/-- The drain loop on the store of 2^31 one-byte frames and some more frames:
the row with ROWID 2^31 is read back as the `int` -2^31, the delete removes
nothing, and the loop goes on for ever. -/
theorem drainLoop_wraps (n : Nat) (hn : n = 2147483648) (tl : List Blob)
    (htl : tl.length < 2147483648) (s : State) (db0 : Db)
    (hempty : db0.packets = some [])
    (hdb : s.db = enqueueAll db0 (List.replicate n [0] ++ tl)) (htx : s.txLeft = none)
    (fuel : Nat) : (drainLoop fuel s).isUnfinished = true := by
  obtain ⟨m, hm⟩ : ∃ m, n = m + 1 := ⟨n - 1, by omega⟩
  have hm1 : m = 2147483647 := by omega
  have hfr : List.replicate n ([0] : Blob) ++ tl = List.replicate m [0] ++ ([0] :: tl) := by
    rw [hm, List.replicate_succ']
    simp
  have hnum : numbered 0 (List.replicate m ([0] : Blob) ++ ([0] :: tl))
      = numbered 0 (List.replicate m [0])
          ++ ({ rowid := (m : Int) + 1, data := [0] } :: numbered (m + 1) tl) := by
    rw [numbered_app]
    simp [numbered]
  have hp : s.db.packets
      = some (numbered 0 (List.replicate m [0])
          ++ ({ rowid := (m : Int) + 1, data := [0] } :: numbered (m + 1) tl)) := by
    rw [hdb, hfr, enqueueAll_empty db0 _ hempty, hnum]
    simp only [List.length_append, List.length_replicate, List.length_cons, MAX_ROWID]
    push_cast
    omega
  have hasc : RowsAscending (numbered 0 (List.replicate m ([0] : Blob))
      ++ ({ rowid := (m : Int) + 1, data := [0] } :: numbered (m + 1) tl)) := by
    rw [← hnum]
    exact ascending_numbered _ 0
  obtain ⟨s1, hl, hp1, _, htx1, _⟩ :=
    drainLoop_prefix _ (numbered 0 (List.replicate m ([0] : Blob))) s fuel hp hasc
      (by
        intro r hr
        have hmem := mem_numbered _ 0 r hr
        refine ⟨?_, ?_, numbered_fits _ (by simp; omega) r hr⟩
        · have := List.eq_of_mem_replicate hmem.2.2
          simp [this]
        · have := List.eq_of_mem_replicate hmem.2.2
          simp [this, BUFSIZE])
      htx
  have hstuck := drainLoop_stuck { rowid := (m : Int) + 1, data := [0] }
    (numbered (m + 1) tl) (by simp) (by simp [BUFSIZE])
    (by
      intro x hx
      have hw : wrapInt32 ((m : Int) + 1) = -2147483648 := by
        unfold wrapInt32
        omega
      rw [hw]
      rcases List.mem_cons.mp hx with h1 | h1
      · rw [h1]
        show (m : Int) + 1 ≠ -2147483648
        omega
      · have := mem_numbered tl (m + 1) x h1
        push_cast at this
        omega)
    fuel s1 hp1 htx1
  rw [← hl, length_numbered, List.length_replicate] at hstuck
  apply whileOne_unfinished_mono drainBody m fuel s
  rw [Nat.add_comm]
  exact hstuck

/-- The drain loop on the store of one frame longer than the buffer: the copy
into `buffer` runs past its end in the first pass. -/
theorem drainLoop_overrun (z : Blob) (hz : BUFSIZE < z.length) (fuel : Nat) :
    (drainLoop (fuel + 1) (stateOf (enqueueAll emptyStore [z]))).outcome
      = some Outcome.undefined := by
  have hp : (stateOf (enqueueAll emptyStore [z])).db.packets
      = some [{ rowid := 1, data := z }] := by
    rw [stateOf_db, enqueueAll_empty emptyStore [z] rfl (by simp [MAX_ROWID])]
    simp [numbered]
  show (whileOne drainBody (fuel + 1) _).outcome = _
  rw [whileOne, drainBody_too_long _ _ [] hp hz]
  rfl

/-! ## C1: FIFO order of the drain loop -/

/-- C1 (amended): when fewer than 2^31 frames, each non-empty and of at most
BUFSIZE bytes, were enqueued in order with `writeBlob` into an empty table and
every write to the interface succeeds, the drain loop ends by its `break` after
writing exactly those frames to the interface, in enqueue order, and leaves the
table empty. -/
theorem drain_fifo (s : State) (db0 : Db) (frames : List Blob)
    (hempty : db0.packets = some [])
    (hdb : s.db = enqueueAll db0 frames)
    (hframes : ∀ f ∈ frames, f ≠ [] ∧ f.length ≤ BUFSIZE)
    (hcount : frames.length < 2147483648)
    (htx : s.txLeft = none) (fuel : Nat) (hfuel : frames.length < fuel) :
    ∃ s1, drainLoop fuel s = LoopResult.left s1 ∧
      framesWritten s1.trace = framesWritten s.trace ++ frames ∧
      s1.db.packets = some [] := by
  have hp : s.db.packets = some (numbered 0 frames ++ []) := by
    rw [hdb, enqueueAll_empty db0 frames hempty (by simp only [MAX_ROWID]; omega)]
    simp
  obtain ⟨k, hk⟩ : ∃ k, fuel = (numbered 0 frames).length + (k + 1) :=
    ⟨fuel - frames.length - 1, by rw [length_numbered]; omega⟩
  obtain ⟨s1, hl, hp1, _, _, htr⟩ :=
    drainLoop_prefix [] (numbered 0 frames) s (k + 1) hp
      (by simpa using ascending_numbered frames 0)
      (by
        intro r hr
        have hmem := mem_numbered frames 0 r hr
        exact ⟨(hframes _ hmem.2.2).1, (hframes _ hmem.2.2).2, numbered_fits frames hcount r hr⟩)
      htx
  refine ⟨{ s1 with db := s1.db.settled }, ?_, ?_, ?_⟩
  · rw [hk, hl]
    exact drainLoop_done s1 [] k hp1 (by simp)
  · simp only [htr, framesWritten_append, framesWritten_drainEvents, map_data_numbered]
  · simpa [Db.settled] using hp1

/-- Witness of C1 (amended): two frames, of 3 bytes and of 1 byte. -/
theorem drain_fifo_witness :
    framesWritten (drainLoop 3 (stateOf (enqueueAll emptyStore [[1, 2, 3], [4]]))).state.trace
      = [[1, 2, 3], [4]] := by
  obtain ⟨s1, h1, h2, _⟩ :=
    drain_fifo (stateOf (enqueueAll emptyStore [[1, 2, 3], [4]])) emptyStore [[1, 2, 3], [4]]
      rfl rfl (by simp [BUFSIZE]) (by simp) rfl 3 (by simp)
  rw [h1]
  simpa [LoopResult.state, stateOf, framesWritten] using h2

/-- C1 (as stated) fails, at three inputs. After the frames `[]` and `[1]` were
enqueued into an empty table the drain loop breaks at once: it writes nothing
to the interface and both rows stay in the table. After one frame of 2001
bytes was enqueued, the copy into `buffer` runs past its end. After 2^31
one-byte frames were enqueued the drain loop never ends: the ROWID 2^31 comes
back as the `int` -2^31 and `deleteBlob` removes no row. -/
theorem drain_fifo_fails :
    ((drainLoop 3 (stateOf (enqueueAll emptyStore [[], [1]]))).isLeft = true ∧
      framesWritten (drainLoop 3 (stateOf (enqueueAll emptyStore [[], [1]]))).state.trace = [] ∧
      (drainLoop 3 (stateOf (enqueueAll emptyStore [[], [1]]))).state.db.rows
        = [{ rowid := 1, data := [] }, { rowid := 2, data := [1] }]) ∧
    (drainLoop 2 (stateOf (enqueueAll emptyStore [List.replicate 2001 0]))).outcome
      = some Outcome.undefined ∧
    ¬ ∃ fuel : Nat,
      (drainLoop fuel (stateOf (enqueueAll emptyStore
        (List.replicate 2147483648 [0])))).isUnfinished = false := by
  refine ⟨by decide, ?_, ?_⟩
  · exact drainLoop_overrun (List.replicate 2001 0)
      (by rw [List.length_replicate]; decide) 1
  · rintro ⟨fuel, h⟩
    have := drainLoop_wraps 2147483648 rfl [] (by decide)
      (stateOf (enqueueAll emptyStore (List.replicate 2147483648 [0]))) emptyStore rfl
      (by rw [List.append_nil]; exact stateOf_db _) (stateOf_txLeft _) fuel
    rw [this] at h
    exact Bool.noConfusion h

/-! ## C7: non-empty frames followed by a zero-length frame -/

/-- Below the limit of the C `int`: when fewer than 2^31 non-empty frames of at
most BUFSIZE bytes each, followed by one zero-length frame, were enqueued in
order into an empty table and every write to the interface succeeds, the drain
loop ends by its `break`; what it did is, for each non-empty frame in enqueue
order, the write of exactly its bytes to the interface and then the delete of
its row; the table ends with one row, the zero-length frame. -/
theorem drain_scenario (s : State) (db0 : Db) (frames : List Blob)
    (hempty : db0.packets = some [])
    (hdb : s.db = enqueueAll db0 (frames ++ [[]]))
    (hframes : ∀ f ∈ frames, f ≠ [] ∧ f.length ≤ BUFSIZE)
    (hcount : frames.length < 2147483648)
    (htx : s.txLeft = none) (fuel : Nat) (hfuel : frames.length < fuel) :
    ∃ s1, drainLoop fuel s = LoopResult.left s1 ∧
      s1.trace = s.trace ++ drainEvents (numbered 0 frames) ∧
      framesWritten s1.trace = framesWritten s.trace ++ frames ∧
      s1.db.packets = some [{ rowid := (frames.length : Int) + 1, data := [] }] := by
  have hp : s.db.packets
      = some (numbered 0 frames ++ [{ rowid := (frames.length : Int) + 1, data := [] }]) := by
    rw [hdb, enqueueAll_empty db0 _ hempty (by
      simp only [MAX_ROWID, List.length_append, List.length_singleton]; push_cast; omega)]
    rw [numbered_append]
    simp
  obtain ⟨k, hk⟩ : ∃ k, fuel = (numbered 0 frames).length + (k + 1) :=
    ⟨fuel - frames.length - 1, by rw [length_numbered]; omega⟩
  obtain ⟨s1, hl, hp1, _, _, htr⟩ :=
    drainLoop_prefix [{ rowid := (frames.length : Int) + 1, data := [] }] (numbered 0 frames) s
      (k + 1) hp
      (by
        have := ascending_numbered (frames ++ [[]]) 0
        rw [numbered_append] at this
        simpa using this)
      (by
        intro r hr
        have hmem := mem_numbered frames 0 r hr
        exact ⟨(hframes _ hmem.2.2).1, (hframes _ hmem.2.2).2, numbered_fits frames hcount r hr⟩)
      htx
  refine ⟨{ s1 with db := s1.db.settled }, ?_, htr, ?_, ?_⟩
  · rw [hk, hl]
    exact drainLoop_done s1 _ k hp1 (by simp)
  · simp only [htr, framesWritten_append, framesWritten_drainEvents, map_data_numbered]
  · simpa [Db.settled] using hp1

/-- The scenario at A of 3 bytes, B of 10 bytes, then C of 0 bytes. -/
theorem drain_scenario_witness :
    (drainLoop 3 (stateOf (enqueueAll emptyStore
        [[1, 2, 3], [0, 1, 2, 3, 4, 5, 6, 7, 8, 9], []]))).state.trace
      = [Event.tapWrite [1, 2, 3], Event.dbDelete 1,
         Event.tapWrite [0, 1, 2, 3, 4, 5, 6, 7, 8, 9], Event.dbDelete 2] := by
  obtain ⟨s1, h1, h2, _, _⟩ :=
    drain_scenario (stateOf (enqueueAll emptyStore [[1, 2, 3], [0, 1, 2, 3, 4, 5, 6, 7, 8, 9], []]))
      emptyStore [[1, 2, 3], [0, 1, 2, 3, 4, 5, 6, 7, 8, 9]]
      rfl rfl (by simp [BUFSIZE]) (by simp) rfl 3 (by simp)
  rw [h1]
  simpa [LoopResult.state, stateOf, drainEvents, numbered] using h2

/-- C7, the code at the failing input of 2^31 one-byte frames followed by the
zero-length frame: the drain loop never ends. The frame with ROWID 2^31 comes
back from `sqlite3_column_int` as `-2^31`, so the `deleteBlob` under the comment
`Remove packet from database` removes no row, and the same frame is read and
written again in every later pass. -/
theorem drain_scenario_fails_past_int :
    ¬ ∃ fuel : Nat,
      (drainLoop fuel (stateOf (enqueueAll emptyStore
        (List.replicate 2147483648 [0] ++ [[]])))).isUnfinished = false := by
  rintro ⟨fuel, h⟩
  have := drainLoop_wraps 2147483648 rfl [[]] (by decide)
    (stateOf (enqueueAll emptyStore (List.replicate 2147483648 [0] ++ [[]]))) emptyStore rfl
    (stateOf_db _) (stateOf_txLeft _) fuel
  rw [this] at h
  exact Bool.noConfusion h

/-! ## C2: what `readBlob` returns -/

theorem minimal_is_head (h : Row) (t : List Row) (hasc : RowsAscending (h :: t)) (r : Row)
    (hr : r ∈ h :: t) (hmin : ∀ x ∈ h :: t, r.rowid ≤ x.rowid) : r = h := by
  unfold RowsAscending at hasc
  rw [List.pairwise_cons] at hasc
  rcases List.mem_cons.mp hr with h1 | h1
  · exact h1
  · have h2 := hasc.1 r h1
    have h3 := hmin h (List.mem_cons_self _ _)
    omega

theorem head_is_minimal (h : Row) (t : List Row) (hasc : RowsAscending (h :: t)) :
    ∀ x ∈ h :: t, h.rowid ≤ x.rowid := by
  unfold RowsAscending at hasc
  rw [List.pairwise_cons] at hasc
  intro x hx
  rcases List.mem_cons.mp hx with h1 | h1
  · rw [h1]
  · exact le_of_lt (hasc.1 x h1)

/-- C2 (amended): on a table whose rows are in ascending ROWID order, `readBlob`
returns for an empty table the code SQLITE_OK with a null blob, length 0 and id 0;
otherwise it returns the payload bytes and the length of the row with the
smallest ROWID, and that ROWID converted to `int` (the ROWID itself when it
fits). The length it returns is non-zero exactly when there is an oldest
row and its payload is not empty: an oldest row with a zero-length payload
gives the same length 0 as the empty table. -/
theorem readBlob_oldest (db : Db) (rows : List Row) (hp : db.packets = some rows)
    (hasc : RowsAscending rows) :
    (rows = [] ∧
        readBlob db = (SQLITE_OK, { zBlob := none, nBlob := 0, rowid := 0 }, db.settled)
      ∨ ∃ r ∈ rows, (∀ x ∈ rows, r.rowid ≤ x.rowid) ∧
          readBlob db = (SQLITE_OK,
            { zBlob := some r.data, nBlob := r.data.length, rowid := wrapInt32 r.rowid },
            db.settled) ∧
          (wrapInt32 r.rowid = r.rowid ∨ ¬ FitsInt r.rowid)) ∧
    ((readBlob db).2.1.nBlob ≠ 0 ↔
      ∃ r ∈ rows, (∀ x ∈ rows, r.rowid ≤ x.rowid) ∧ r.data ≠ []) := by
  cases rows with
  | nil =>
    refine ⟨Or.inl ⟨rfl, by simp [readBlob_eq, readBlobSpec, hp]⟩, ?_⟩
    simp [readBlob_eq, readBlobSpec, hp]
  | cons h t =>
    have hread : readBlob db = (SQLITE_OK,
        { zBlob := some h.data, nBlob := h.data.length, rowid := wrapInt32 h.rowid },
        db.settled) := by
      simp [readBlob_eq, readBlobSpec, hp]
    refine ⟨Or.inr ⟨h, List.mem_cons_self _ _, head_is_minimal h t hasc, hread, ?_⟩, ?_⟩
    · by_cases hf : FitsInt h.rowid
      · exact Or.inl (wrapInt32_of_fits _ hf)
      · exact Or.inr hf
    · rw [hread]
      constructor
      · intro hn
        exact ⟨h, List.mem_cons_self _ _, head_is_minimal h t hasc, by
          intro he; simp [he] at hn⟩
      · rintro ⟨r, hr, hmin, hne⟩
        have := minimal_is_head h t hasc r hr hmin
        subst this
        simpa using hne

/-- Witness of C2 (amended): rows 5 and 9. -/
theorem readBlob_oldest_witness :
    (readBlob { packets := some [{ rowid := 5, data := [1, 2] }, { rowid := 9, data := [3] }],
                stale := 1, prng := [] }).2.1.nBlob ≠ 0 :=
  (readBlob_oldest
    { packets := some [{ rowid := 5, data := [1, 2] }, { rowid := 9, data := [3] }],
      stale := 1, prng := [] }
    [{ rowid := 5, data := [1, 2] }, { rowid := 9, data := [3] }] rfl (by decide)).2.mpr
    ⟨{ rowid := 5, data := [1, 2] }, by decide, by decide, by decide⟩

/-- C2 (as stated) fails: for the table that holds one row with a zero-length
payload, `readBlob` returns the same code and the same length 0 as for the
empty table, and the drain loop of `main`, which tests the length only, breaks
on both in its first pass; the row stays in the table. -/
theorem readBlob_zero_length_like_empty :
    (enqueueAll emptyStore [[]]).rows = [{ rowid := 1, data := [] }] ∧
    (readBlob (enqueueAll emptyStore [[]])).1 = (readBlob emptyStore).1 ∧
    (readBlob (enqueueAll emptyStore [[]])).2.1.nBlob = (readBlob emptyStore).2.1.nBlob ∧
    (drainLoop 1 (stateOf (enqueueAll emptyStore [[]]))).isLeft = true ∧
    (drainLoop 1 (stateOf emptyStore)).isLeft = true ∧
    (drainLoop 1 (stateOf (enqueueAll emptyStore [[]]))).state.trace
      = (drainLoop 1 (stateOf emptyStore)).state.trace := by
  decide

/-! ## C3: `readBlob` leaves the store alone -/

/-- C3: `readBlob` does not change the rows of the table (nor whether the table
exists), and a second `readBlob` on the store it leaves returns the same code,
id, length and payload as the first. -/
theorem readBlob_keeps_store (db : Db) :
    (readBlob db).2.2.packets = db.packets ∧
    (readBlob (readBlob db).2.2).1 = (readBlob db).1 ∧
    (readBlob (readBlob db).2.2).2.1 = (readBlob db).2.1 := by
  obtain ⟨packets, stale, prng⟩ := db
  rcases packets with _ | _ | ⟨r, rs⟩ <;>
    simp [readBlob_eq, readBlobSpec, Db.settled]

/-! ## C4: `deleteBlob` twice -/

theorem filter_length_ascending (v : Int) :
    ∀ rows : List Row, RowsAscending rows → (∃ r ∈ rows, r.rowid = v) →
      (rows.filter (fun r => !(r.rowid == v))).length + 1 = rows.length := by
  intro rows
  induction rows with
  | nil => intro _ h; simp at h
  | cons x xs ih =>
    intro hasc hv
    by_cases hx : x.rowid = v
    · subst hx
      rw [filter_head_ascending x xs hasc]
      simp
    · have hasc1 : RowsAscending xs := by
        unfold RowsAscending at hasc ⊢
        exact (List.pairwise_cons.mp hasc).2
      obtain ⟨r, hr, hrv⟩ := hv
      have hr1 : r ∈ xs := by
        rcases List.mem_cons.mp hr with h1 | h1
        · subst h1; exact absurd hrv hx
        · exact h1
      have := ih hasc1 ⟨r, hr1, hrv⟩
      rw [List.filter_cons_of_pos (by simpa using hx)]
      simp only [List.length_cons]
      omega

/-- C4 (amended): for a table with rows in ascending ROWID order and an id
present in it, both of two successive calls of `deleteBlob` with that id return
SQLITE_OK; the first removes exactly the row with that id (the count goes
down by one and the rows with another id stay as they are, in order), the
second changes no row. -/
theorem deleteBlob_twice (db : Db) (rows : List Row) (v : Int)
    (hp : db.packets = some rows) (hasc : RowsAscending rows)
    (hv : ∃ r ∈ rows, r.rowid = v) :
    (deleteBlob db v).1 = SQLITE_OK ∧
    (deleteBlob (deleteBlob db v).2 v).1 = SQLITE_OK ∧
    (deleteBlob db v).2.packets = some (rows.filter (fun r => !(r.rowid == v))) ∧
    (deleteBlob db v).2.rows.length + 1 = rows.length ∧
    (deleteBlob (deleteBlob db v).2 v).2.packets = (deleteBlob db v).2.packets := by
  have h1 : deleteBlob db v
      = (SQLITE_OK, { packets := some (rows.filter (fun r => !(r.rowid == v))),
                      stale := 0, prng := db.prng }) := by
    simp [deleteBlob_eq, deleteBlobSpec, hp]
  rw [h1]
  refine ⟨rfl, by simp [deleteBlob_eq, deleteBlobSpec], rfl, ?_, ?_⟩
  · simpa [Db.rows] using filter_length_ascending v rows hasc hv
  · simp [deleteBlob_eq, deleteBlobSpec, List.filter_filter]

/-- Witness of C4 (amended): rows 1, 2 and 3, id 2. -/
theorem deleteBlob_twice_witness :
    (deleteBlob (enqueueAll emptyStore [[7], [8], [9]]) 2).2.rows.length + 1
      = [({ rowid := 1, data := [7] } : Row), { rowid := 2, data := [8] },
          { rowid := 3, data := [9] }].length :=
  (deleteBlob_twice (enqueueAll emptyStore [[7], [8], [9]])
    [{ rowid := 1, data := [7] }, { rowid := 2, data := [8] }, { rowid := 3, data := [9] }] 2
    (by decide) (by decide) ⟨{ rowid := 2, data := [8] }, by decide, rfl⟩).2.2.2.1

/-- C4 (as stated) fails: on the table with the single row 1, the first
`deleteBlob(db, 1)` removes the row and the second removes nothing, and both
return the same code SQLITE_OK: the result does not tell the two apart. -/
theorem deleteBlob_reports_no_difference :
    (enqueueAll emptyStore [[7]]).rows = [{ rowid := 1, data := [7] }] ∧
    (deleteBlob (enqueueAll emptyStore [[7]]) 1).2.rows = [] ∧
    (deleteBlob (enqueueAll emptyStore [[7]]) 1).1 = SQLITE_OK ∧
    (deleteBlob (deleteBlob (enqueueAll emptyStore [[7]]) 1).2 1).1 = SQLITE_OK := by
  decide

/-! ## C6: opening a store again -/

/-- C6: the initialisation step of `main` on a file that can be opened returns
SQLITE_OK, so that `main` goes on; it leaves the rows of an existing table
`packets` as they are (same rows, same order, the database unchanged) and
makes an empty table where there was none; run again on the database it
left, it returns SQLITE_OK and that same database. -/
theorem openStore_again (db : Db) :
    ∃ db1, openStore (some db) = (SQLITE_OK, some db1) ∧
      db1.packets = some db.rows ∧
      (db.packets = none ∨ db1 = db) ∧
      openStore (some db1) = (SQLITE_OK, some db1) := by
  obtain ⟨packets, stale, prng⟩ := db
  cases packets with
  | none =>
    exact ⟨{ packets := some [], stale := stale, prng := prng },
      by simp [openStore, sqlite3_open, createBlobTable, sqlite3_exec_create],
      by simp [Db.rows], Or.inl rfl,
      by simp [openStore, sqlite3_open, createBlobTable, sqlite3_exec_create]⟩
  | some rows =>
    exact ⟨{ packets := some rows, stale := stale, prng := prng },
      by simp [openStore, sqlite3_open, createBlobTable, sqlite3_exec_create],
      by simp [Db.rows], Or.inr rfl,
      by simp [openStore, sqlite3_open, createBlobTable, sqlite3_exec_create]⟩

/-! ## C8: the command line -/

/-- C8, the code at the failing input `sparrow -I tun0`: no `-o` was given, and
`main` prints no usage text and does not exit; it goes on to `sqlite3_open` with
the `db_file` that was never assigned. -/
theorem main_without_store_path (env : Env) (fuelDrain fuelCapture : Nat) :
    (main [['s', 'p', 'a', 'r', 'r', 'o', 'w'], ['-', 'I'], ['t', 'u', 'n', '0']]
      env fuelDrain fuelCapture).outcome = Outcome.undefined ∧
    (main [['s', 'p', 'a', 'r', 'r', 'o', 'w'], ['-', 'I'], ['t', 'u', 'n', '0']]
      env fuelDrain fuelCapture).trace = [Event.sqliteOpen none] := by
  constructor <;> rfl

/-! ## C5: the ids `writeBlob` assigns -/

theorem ascending_tail (x : Row) (xs : List Row) (h : RowsAscending (x :: xs)) :
    RowsAscending xs := by
  unfold RowsAscending at h ⊢
  exact (List.pairwise_cons.mp h).2

theorem ascending_filter (p : Row → Bool) (rows : List Row) (h : RowsAscending rows) :
    RowsAscending (rows.filter p) := by
  unfold RowsAscending at h ⊢
  exact List.Pairwise.sublist (List.filter_sublist rows) h

theorem ascending_snoc (rows : List Row) (r : Row) (h : RowsAscending rows)
    (hr : ∀ x ∈ rows, x.rowid < r.rowid) : RowsAscending (rows ++ [r]) := by
  unfold RowsAscending at h ⊢
  rw [List.pairwise_append]
  refine ⟨h, by simp, ?_⟩
  intro a ha b hb
  rw [List.mem_singleton.mp hb]
  exact hr a ha

theorem newRowid_ascending (rows : List Row) (prng : List Int) (hasc : RowsAscending rows)
    (hmax : ∀ r ∈ rows, r.rowid < MAX_ROWID) :
    ∃ v, newRowid rows prng = (some v, prng) ∧ (∀ r ∈ rows, r.rowid < v) ∧
      (rows = [] ∧ v = 1 ∨ ∃ r ∈ rows, v = r.rowid + 1) := by
  rcases List.eq_nil_or_concat rows with hnil | ⟨init, l, hc⟩
  · subst hnil
    exact ⟨1, by simp [newRowid], by simp, Or.inl ⟨rfl, rfl⟩⟩
  · rw [List.concat_eq_append] at hc
    subst hc
    have hl := hmax l (by simp)
    refine ⟨l.rowid + 1, ?_, ?_, Or.inr ⟨l, by simp, rfl⟩⟩
    · simp only [newRowid, List.getLast?_append, List.getLast?_singleton, Option.or]
      rw [if_pos hl]
    · unfold RowsAscending at hasc
      rw [List.pairwise_append] at hasc
      intro r hr
      rcases List.mem_append.mp hr with h1 | h1
      · have := hasc.2.2 r h1 l (by simp)
        omega
      · rw [List.mem_singleton.mp h1]
        omega

theorem writeBlob_ascending (db : Db) (rows : List Row) (f : Blob)
    (hp : db.packets = some rows) (hasc : RowsAscending rows)
    (hmax : ∀ r ∈ rows, r.rowid < MAX_ROWID) :
    ∃ v, writeBlob db f f.length
        = (SQLITE_OK, { packets := some (rows ++ [{ rowid := v, data := f }]),
                        stale := 0, prng := db.prng }) ∧
      (∀ r ∈ rows, r.rowid < v) ∧ (rows = [] ∧ v = 1 ∨ ∃ r ∈ rows, v = r.rowid + 1) := by
  obtain ⟨v, hv, hlt, hval⟩ := newRowid_ascending rows db.prng hasc hmax
  refine ⟨v, ?_, hlt, hval⟩
  rw [writeBlob_eq]
  simp only [writeBlobSpec, hp, hv, List.take_length]
  rw [insertRow_append _ rows (by simpa using hlt)]

theorem applyOps_bounded :
    ∀ (ops : List Op) (db : Db) (rows : List Row) (n : Nat),
      db.packets = some rows → RowsAscending rows →
      (∀ r ∈ rows, r.rowid ≤ (n : Int)) → ((n + ops.length : Nat) : Int) ≤ MAX_ROWID →
      ∃ rows1, (applyOps db ops).packets = some rows1 ∧ RowsAscending rows1 ∧
        ∀ r ∈ rows1, r.rowid ≤ ((n + ops.length : Nat) : Int) := by
  intro ops
  induction ops with
  | nil =>
    intro db rows n hp hasc hb _
    exact ⟨rows, by simpa [applyOps] using hp, hasc, by simpa using hb⟩
  | cons op ops ih =>
    intro db rows n hp hasc hb hn
    simp only [List.length_cons] at hn ⊢
    push_cast at hn
    have e : n + (ops.length + 1) = (n + 1) + ops.length := by omega
    rw [e]
    cases op with
    | enqueue f =>
      obtain ⟨v, hw, hlt, hval⟩ := writeBlob_ascending db rows f hp hasc (by
        intro r hr
        have := hb r hr
        omega)
      have hv : v ≤ (n : Int) + 1 := by
        rcases hval with ⟨_, h1⟩ | ⟨r, hr, h1⟩
        · omega
        · have := hb r hr
          omega
      have := ih (applyOp db (Op.enqueue f)) (rows ++ [{ rowid := v, data := f }]) (n + 1)
        (by simp [applyOp, hw]) (ascending_snoc rows _ hasc (by simpa using hlt))
        (by
          intro r hr
          rcases List.mem_append.mp hr with h1 | h1
          · have := hb r h1
            push_cast
            omega
          · rw [List.mem_singleton.mp h1]
            push_cast
            exact hv)
        (by push_cast; omega)
      simpa [applyOps] using this
    | remove w =>
      have hd : deleteBlob db w
          = (SQLITE_OK, { packets := some (rows.filter (fun r => !(r.rowid == w))),
                          stale := 0, prng := db.prng }) := by
        simp [deleteBlob_eq, deleteBlobSpec, hp]
      have := ih (applyOp db (Op.remove w)) (rows.filter (fun r => !(r.rowid == w))) (n + 1)
        (by simp [applyOp, hd]) (ascending_filter _ rows hasc)
        (by
          intro r hr
          have := hb r (List.mem_of_mem_filter hr)
          push_cast
          omega)
        (by push_cast; omega)
      simpa [applyOps] using this

/-- C5 (amended): after any sequence of fewer than 2^63 - 1 calls of `writeBlob`
and `deleteBlob` on a store that `createBlobTable` created, `writeBlob` succeeds
and appends the frame as a new row whose id is strictly greater than every id
present in the table at that moment: 1 for an empty table, otherwise one more
than the largest id present. (Ids of removed rows are not kept track of.) -/
theorem enqueue_id_above_present (d : Db) (ops : List Op) (f : Blob)
    (hd : d.packets = none) (hlen : ops.length < 9223372036854775807) :
    ∃ rows v, (applyOps (createBlobTable d).2 ops).packets = some rows ∧
      (writeBlob (applyOps (createBlobTable d).2 ops) f f.length).1 = SQLITE_OK ∧
      (writeBlob (applyOps (createBlobTable d).2 ops) f f.length).2.packets
        = some (rows ++ [{ rowid := v, data := f }]) ∧
      (∀ r ∈ rows, r.rowid < v) ∧
      (rows = [] ∧ v = 1 ∨ ∃ r ∈ rows, v = r.rowid + 1) := by
  have hc : (createBlobTable d).2.packets = some [] := by
    simp [createBlobTable, sqlite3_exec_create, hd]
  obtain ⟨rows, hp, hasc, hb⟩ := applyOps_bounded ops _ [] 0 hc
    (by simp [RowsAscending]) (by simp) (by simp only [MAX_ROWID]; push_cast; omega)
  obtain ⟨v, hw, hlt, hval⟩ := writeBlob_ascending _ rows f hp hasc (by
    intro r hr
    have := hb r hr
    simp only [MAX_ROWID]
    push_cast at this
    omega)
  exact ⟨rows, v, hp, by rw [hw], by rw [hw], hlt, hval⟩

/-- Witness of C5 (amended): enqueue, remove, then the enqueue looked at. -/
theorem enqueue_id_above_present_witness :
    ∃ rows v, (applyOps (createBlobTable freshFile).2 [Op.enqueue [1], Op.remove 1]).packets
        = some rows ∧
      (writeBlob (applyOps (createBlobTable freshFile).2 [Op.enqueue [1], Op.remove 1])
        [2] ([2] : Blob).length).1 = SQLITE_OK ∧
      (writeBlob (applyOps (createBlobTable freshFile).2 [Op.enqueue [1], Op.remove 1])
        [2] ([2] : Blob).length).2.packets = some (rows ++ [{ rowid := v, data := [2] }]) ∧
      (∀ r ∈ rows, r.rowid < v) ∧
      (rows = [] ∧ v = 1 ∨ ∃ r ∈ rows, v = r.rowid + 1) :=
  enqueue_id_above_present freshFile [Op.enqueue [1], Op.remove 1] [2] rfl (by decide)

/-- C5 (as stated) fails: on a store made by `createBlobTable`, the first enqueue
gets id 1; after that row is removed the next enqueue gets id 1 again. -/
theorem enqueue_reuses_removed_id :
    (applyOps (createBlobTable freshFile).2 [Op.enqueue [1]]).rows
      = [{ rowid := 1, data := [1] }] ∧
    (applyOps (createBlobTable freshFile).2 [Op.enqueue [1], Op.remove 1]).rows = [] ∧
    (applyOps (createBlobTable freshFile).2 [Op.enqueue [1], Op.remove 1, Op.enqueue [2]]).rows
      = [{ rowid := 1, data := [2] }] := by
  decide

/-! ## C9: the two loops one after the other -/

/-- Every way one pass of the drain loop can go. -/
theorem drainBody_cases (s : State) :
    (∃ s1, drainBody s = Step.brk s1 ∧ s1.rx = s.rx ∧ s1.trace = s.trace ∧
        s1.db.packets = s.db.packets) ∨
    (∃ o s1, drainBody s = Step.stop o s1 ∧ (o = Outcome.undefined ∨ o = Outcome.exited 1) ∧
        s1.rx = s.rx ∧
        (s1.trace = s.trace ∨ s1.trace = s.trace ++ [Event.stderr Msg.writingData])) ∨
    (∃ s1 r rest, drainBody s = Step.next s1 ∧ s.db.packets = some (r :: rest) ∧
        s1.db.packets
          = some ((r :: rest).filter (fun x => !(x.rowid == wrapInt32 r.rowid))) ∧
        s1.rx = s.rx ∧
        s1.trace = s.trace ++ [Event.tapWrite r.data, Event.dbDelete (wrapInt32 r.rowid)]) := by
  rcases hp : s.db.packets with _ | _ | ⟨r, rest⟩
  · exact Or.inl ⟨_, drainBody_missing s hp, rfl, rfl, hp⟩
  · exact Or.inl ⟨_, drainBody_nil s hp, rfl, rfl, by simp [Db.settled, hp]⟩
  · by_cases hz : r.data = []
    · exact Or.inl ⟨_, drainBody_zero_length s r rest hp hz, rfl, rfl, by simp [Db.settled, hp]⟩
    · by_cases hlen : r.data.length ≤ BUFSIZE
      · by_cases htx : s.txLeft = some 0
        · obtain ⟨s1, h1, h2, h3⟩ := drainBody_write_fails s r rest hp hz hlen htx
          exact Or.inr (Or.inl ⟨_, s1, h1, Or.inr rfl, h2, Or.inr h3⟩)
        · obtain ⟨s1, h1, h2, h3, _, h5⟩ := drainBody_frame s r rest hp hz hlen htx
          exact Or.inr (Or.inr ⟨s1, r, rest, h1, rfl, h2, h3, h5⟩)
      · exact Or.inr (Or.inl ⟨_, _, drainBody_too_long s r rest hp (by omega), Or.inl rfl, rfl,
          Or.inl rfl⟩)

theorem drainLoop_ends :
    ∀ (fuel : Nat) (s : State), RowsAscending s.db.rows → (∀ r ∈ s.db.rows, FitsInt r.rowid) →
      s.db.rows.length < fuel → (drainLoop fuel s).isUnfinished = false := by
  intro fuel
  induction fuel with
  | zero => intro s _ _ h; omega
  | succ n ih =>
    intro s hasc hfit hlen
    show (whileOne drainBody (n + 1) s).isUnfinished = false
    rw [whileOne]
    rcases drainBody_cases s with ⟨s1, h1, _⟩ | ⟨o, s1, h1, _⟩ | ⟨s1, r, rest, h1, hp, hp1, _⟩
    · rw [h1]; rfl
    · rw [h1]; rfl
    · rw [h1]
      have hrows : s.db.rows = r :: rest := by simp [Db.rows, hp]
      rw [hrows] at hasc hfit hlen
      rw [wrapInt32_of_fits _ (hfit r (List.mem_cons_self _ _)),
        filter_head_ascending r rest hasc] at hp1
      have hrows1 : s1.db.rows = rest := by simp [Db.rows, hp1]
      apply ih s1
      · rw [hrows1]; exact ascending_tail r rest hasc
      · rw [hrows1]; exact fun x hx => hfit x (List.mem_cons_of_mem _ hx)
      · rw [hrows1]; simp only [List.length_cons] at hlen; omega

theorem drainLoop_no_capture :
    ∀ (fuel : Nat) (s : State), (drainLoop fuel s).state.rx = s.rx ∧
      ∃ evs, (drainLoop fuel s).state.trace = s.trace ++ evs ∧ ∀ e ∈ evs, e.capture = false := by
  intro fuel
  induction fuel with
  | zero => intro s; exact ⟨rfl, [], by simp [drainLoop, whileOne, LoopResult.state], by simp⟩
  | succ n ih =>
    intro s
    show (whileOne drainBody (n + 1) s).state.rx = s.rx ∧
      ∃ evs, (whileOne drainBody (n + 1) s).state.trace = s.trace ++ evs ∧ _
    rw [whileOne]
    rcases drainBody_cases s with ⟨s1, h1, h2, h3, _⟩ | ⟨o, s1, h1, _, h2, h3⟩ |
      ⟨s1, r, rest, h1, _, _, h2, h3⟩
    · rw [h1]
      exact ⟨h2, [], by simp [LoopResult.state, h3], by simp⟩
    · rw [h1]
      rcases h3 with h3 | h3
      · exact ⟨h2, [], by simp [LoopResult.state, h3], by simp⟩
      · exact ⟨h2, [Event.stderr Msg.writingData], by simp [LoopResult.state, h3],
          by simp [Event.capture]⟩
    · rw [h1]
      obtain ⟨hrx, evs, htr, hev⟩ := ih s1
      refine ⟨by rw [← h2]; exact hrx,
        Event.tapWrite r.data :: Event.dbDelete (wrapInt32 r.rowid) :: evs, ?_, ?_⟩
      · show (drainLoop n s1).state.trace = _
        rw [htr, h3]
        simp
      · intro e he
        simp only [List.mem_cons] at he
        rcases he with rfl | rfl | he
        · rfl
        · rfl
        · exact hev e he

theorem drainLoop_outcome :
    ∀ (fuel : Nat) (s s1 : State) (o : Outcome), drainLoop fuel s = LoopResult.ended o s1 →
      o = Outcome.undefined ∨ o = Outcome.exited 1 := by
  intro fuel
  induction fuel with
  | zero => intro s s1 o h; simp [drainLoop, whileOne] at h
  | succ n ih =>
    intro s s1 o h
    change whileOne drainBody (n + 1) s = _ at h
    rw [whileOne] at h
    rcases drainBody_cases s with ⟨s2, h1, _⟩ | ⟨o2, s2, h1, h2, _⟩ | ⟨s2, r, rest, h1, _⟩
    · rw [h1] at h; simp at h
    · rw [h1] at h
      simp only [LoopResult.ended.injEq] at h
      rw [← h.1]
      exact h2
    · rw [h1] at h
      exact ih s2 s1 o h

theorem captureBody_not_brk (s s1 : State) : captureBody s ≠ Step.brk s1 := by
  unfold captureBody
  cases hc : cread s BUFSIZE <;> simp

theorem captureBody_stop (s s1 : State) (o : Outcome) (h : captureBody s = Step.stop o s1) :
    o = Outcome.blocked ∨ o = Outcome.exited 1 := by
  unfold captureBody at h
  cases hc : cread s BUFSIZE <;> rw [hc] at h <;> simp at h
  · exact Or.inr h.1.symm
  · exact Or.inl h.1.symm

theorem captureLoop_not_left :
    ∀ (fuel : Nat) (s : State), (captureLoop fuel s).isLeft = false := by
  intro fuel
  induction fuel with
  | zero => intro s; rfl
  | succ n ih =>
    intro s
    show (whileOne captureBody (n + 1) s).isLeft = false
    rw [whileOne]
    cases hb : captureBody s with
    | next s1 => exact ih s1
    | brk s1 => exact absurd hb (captureBody_not_brk s s1)
    | stop o s1 => rfl

theorem captureLoop_outcome :
    ∀ (fuel : Nat) (s s1 : State) (o : Outcome), captureLoop fuel s = LoopResult.ended o s1 →
      o = Outcome.blocked ∨ o = Outcome.exited 1 := by
  intro fuel
  induction fuel with
  | zero => intro s s1 o h; simp [captureLoop, whileOne] at h
  | succ n ih =>
    intro s s1 o h
    change whileOne captureBody (n + 1) s = _ at h
    rw [whileOne] at h
    cases hb : captureBody s with
    | next s2 => rw [hb] at h; exact ih s2 s1 o h
    | brk s2 => exact absurd hb (captureBody_not_brk s s2)
    | stop o2 s2 =>
      rw [hb] at h
      simp only [LoopResult.ended.injEq] at h
      rw [← h.1]
      exact captureBody_stop s s2 o2 hb

theorem optionLoop_error :
    ∀ (opts : List Opt) (o : Opts) (trace : List Event) (e : Outcome × List Event),
      optionLoop opts o trace = Except.error e → e.1 = Outcome.exited 1 := by
  intro opts
  induction opts with
  | nil => intro o trace e h; simp [optionLoop] at h
  | cons x xs ih =>
    intro o trace e h
    cases x with
    | flag c =>
      simp only [optionLoop] at h
      split_ifs at h
      · exact ih _ _ _ h
      · simp only [usage, Except.error.injEq] at h; rw [← h]
      · exact ih _ _ _ h
      · exact ih _ _ _ h
      · simp only [usage, Except.error.injEq] at h; rw [← h]
    | withArg c a =>
      simp only [optionLoop] at h
      split_ifs at h
      · exact ih _ _ _ h
      · exact ih _ _ _ h
      · simp only [usage, Except.error.injEq] at h; rw [← h]
    | question =>
      simp only [optionLoop, usage, Except.error.injEq] at h
      rw [← h]

theorem checkOptions_error (argv : List (List Char)) (e : Outcome × List Event)
    (h : checkOptions argv = Except.error e) : e.1 = Outcome.exited 1 := by
  unfold checkOptions at h
  simp only at h
  cases hl : optionLoop (getoptAll argv.tail).1
      { debug := false, if_name := [], db_file := none, tap := false } [] with
  | error e1 =>
    rw [hl] at h
    simp only [Except.error.injEq] at h
    rw [← h]
    exact optionLoop_error _ _ _ _ hl
  | ok o =>
    rw [hl] at h
    simp only at h
    split_ifs at h <;> simp only [usage, Except.error.injEq] at h <;> rw [← h]

theorem main_never_returns_zero (argv : List (List Char)) (env : Env) (fuelDrain fuelCapture : Nat) :
    (main argv env fuelDrain fuelCapture).outcome ≠ Outcome.exited 0 := by
  unfold main
  cases hc : checkOptions argv with
  | error e => simp [checkOptions_error argv e hc]
  | ok o =>
    simp only
    cases hf : o.db_file with
    | none => simp
    | some path =>
      simp only
      rcases ho : openStore env.file with ⟨rc, h⟩
      cases rc <;> cases h <;> simp only <;> try simp
      split_ifs
      · split
        · rename_i oc s1 hd
          rcases drainLoop_outcome _ _ _ _ hd with h1 | h1 <;> simp [h1]
        · simp
        · split
          · rename_i oc s2 hcap
            rcases captureLoop_outcome _ _ _ _ hcap with h1 | h1 <;> simp [h1]
          · simp
          · rename_i s1 _ _ s2 hcap
            have := captureLoop_not_left fuelCapture s1
            rw [hcap] at this
            simp [LoopResult.isLeft] at this
      · simp

theorem optionLoop_error_trace :
    ∀ (opts : List Opt) (o : Opts) (trace : List Event) (e : Outcome × List Event),
      optionLoop opts o trace = Except.error e → (∀ ev ∈ trace, ev.isStderr = true) →
      (∀ ev ∈ e.2, ev.isStderr = true) ∧ e.2.getLast? = some (Event.stderr Msg.usage) := by
  intro opts
  induction opts with
  | nil => intro o trace e h; simp [optionLoop] at h
  | cons x xs ih =>
    intro o trace e h ht
    have hu : ∀ m : List Event, (∀ ev ∈ m, ev.isStderr = true) →
        Except.error (usage (trace ++ m)) = (Except.error e : Except (Outcome × List Event) Opts) →
        (∀ ev ∈ e.2, ev.isStderr = true) ∧ e.2.getLast? = some (Event.stderr Msg.usage) := by
      intro m hm he
      simp only [usage, Except.error.injEq] at he
      rw [← he]
      refine ⟨?_, by simp⟩
      intro ev hev
      simp only [List.mem_append, List.mem_singleton] at hev
      rcases hev with (h1 | h1) | h1
      · exact ht ev h1
      · exact hm ev h1
      · rw [h1]; rfl
    cases x with
    | flag c =>
      simp only [optionLoop] at h
      split_ifs at h
      · exact ih _ _ _ h ht
      · exact hu [] (by simp) (by simpa using h)
      · exact ih _ _ _ h ht
      · exact ih _ _ _ h ht
      · exact hu [Event.stderr Msg.unknownOption] (by simp [Event.isStderr]) h
    | withArg c a =>
      simp only [optionLoop] at h
      split_ifs at h
      · exact ih _ _ _ h ht
      · exact ih _ _ _ h ht
      · exact hu [Event.stderr Msg.unknownOption] (by simp [Event.isStderr]) h
    | question =>
      simp only [optionLoop] at h
      exact hu [Event.stderr Msg.unknownOption] (by simp [Event.isStderr]) h

/-- Whenever the checks of `main` on the command line refuse it, only messages
were printed on the error stream, the last of them the usage text. -/
theorem checkOptions_error_trace (argv : List (List Char)) (e : Outcome × List Event)
    (h : checkOptions argv = Except.error e) :
    (∀ ev ∈ e.2, ev.isStderr = true) ∧ e.2.getLast? = some (Event.stderr Msg.usage) := by
  unfold checkOptions at h
  simp only at h
  cases hl : optionLoop (getoptAll argv.tail).1
      { debug := false, if_name := [], db_file := none, tap := false } [] with
  | error e1 =>
    rw [hl] at h
    simp only [Except.error.injEq] at h
    rw [← h]
    exact optionLoop_error_trace _ _ _ _ hl (by simp)
  | ok o =>
    rw [hl] at h
    simp only at h
    split_ifs at h <;> simp only [usage, Except.error.injEq] at h <;> rw [← h] <;>
      exact ⟨by simp [Event.isStderr], by simp⟩

theorem capture_of_isStderr (ev : Event) (h : ev.isStderr = true) : ev.capture = false := by
  cases ev <;> first | rfl | simp [Event.isStderr] at h

theorem captureLoop_appends :
    ∀ (fuel : Nat) (s : State), ∃ evs, (captureLoop fuel s).state.trace = s.trace ++ evs := by
  intro fuel
  induction fuel with
  | zero => intro s; exact ⟨[], by simp [captureLoop, whileOne, LoopResult.state]⟩
  | succ n ih =>
    intro s
    show ∃ evs, (whileOne captureBody (n + 1) s).state.trace = s.trace ++ evs
    rw [whileOne]
    rcases hrx : s.rx with _ | ⟨_ | bytes, rest⟩
    · exact ⟨[], by simp [captureBody, cread, hrx, LoopResult.state]⟩
    · exact ⟨[Event.stderr Msg.readingData], by simp [captureBody, cread, hrx, LoopResult.state]⟩
    · rw [captureBody_got s bytes rest hrx]
      obtain ⟨evs, h⟩ := ih
        { db := (writeBlob s.db (bytes.take BUFSIZE) (bytes.take BUFSIZE).length).2,
          buffer := s.buffer.store (bytes.take BUFSIZE), rx := rest, txLeft := s.txLeft,
          trace := s.trace ++ [Event.tapRead (bytes.take BUFSIZE).length,
                               Event.dbWrite (bytes.take BUFSIZE)] }
      exact ⟨_, by
        show (captureLoop n _).state.trace = _
        rw [h, List.append_assoc]⟩

/-- In every run of `main`, what was done by the end of the drain loop holds no
read from the interface and no enqueue, and what the capture loop does
comes after it. -/
theorem main_drain_first (argv : List (List Char)) (env : Env) (fuelDrain fuelCapture : Nat) :
    (∀ e ∈ (main argv env fuelDrain 0).trace, e.capture = false) ∧
    ∃ evs, (main argv env fuelDrain fuelCapture).trace
      = (main argv env fuelDrain 0).trace ++ evs := by
  unfold main
  cases hc : checkOptions argv with
  | error e =>
    exact ⟨fun ev hev => capture_of_isStderr ev ((checkOptions_error_trace argv e hc).1 ev hev),
      [], by simp⟩
  | ok o =>
    simp only
    cases hf : o.db_file with
    | none => exact ⟨by simp [Event.capture], [], by simp⟩
    | some path =>
      simp only
      rcases ho : openStore env.file with ⟨rc, h⟩
      cases rc <;> cases h <;> simp only
      case SQLITE_OK.some db =>
        split_ifs
        case neg => exact ⟨by simp [Event.capture], [], by simp⟩
        obtain ⟨_, evs, htr, hev⟩ := drainLoop_no_capture fuelDrain
          { db := db, buffer := env.buffer, rx := env.rx, txLeft := env.txLeft,
            trace := [Event.sqliteOpen (some path)] ++ [Event.tunAlloc o.if_name o.tap] }
        have hall : ∀ e ∈ (drainLoop fuelDrain
            { db := db, buffer := env.buffer, rx := env.rx, txLeft := env.txLeft,
              trace := [Event.sqliteOpen (some path)] ++ [Event.tunAlloc o.if_name o.tap] }
            ).state.trace, e.capture = false := by
          intro e he
          rw [htr] at he
          simp only [List.mem_append, List.mem_singleton] at he
          rcases he with (rfl | rfl) | he
          · rfl
          · rfl
          · exact hev e he
        cases hd : drainLoop fuelDrain
            { db := db, buffer := env.buffer, rx := env.rx, txLeft := env.txLeft,
              trace := [Event.sqliteOpen (some path)] ++ [Event.tunAlloc o.if_name o.tap] } with
        | ended oc s1 =>
          rw [hd] at hall
          exact ⟨hall, [], by simp⟩
        | unfinished s1 =>
          rw [hd] at hall
          exact ⟨hall, [], by simp⟩
        | left s1 =>
          rw [hd] at hall
          have h0 : captureLoop 0 s1 = LoopResult.unfinished s1 := rfl
          simp only [h0]
          refine ⟨hall, ?_⟩
          obtain ⟨evs1, h1⟩ := captureLoop_appends fuelCapture s1
          cases hcap : captureLoop fuelCapture s1 with
          | ended oc s2 =>
            rw [hcap] at h1
            exact ⟨evs1, h1⟩
          | unfinished s2 =>
            rw [hcap] at h1
            exact ⟨evs1, h1⟩
          | left s2 =>
            have := captureLoop_not_left fuelCapture s1
            rw [hcap] at this
            simp [LoopResult.isLeft] at this
      all_goals exact ⟨by simp [Event.capture], [], by simp⟩

/-- C9: on a table with rows in ascending ROWID order whose ROWIDs all fit a C
`int` (so that each `deleteBlob` of the loop removes the row just read), the
drain loop ends within as many passes as the table has rows, plus the pass that
breaks; each pass that runs to its end removes exactly one row. The drain
loop, for any number of passes, reads nothing from the interface and enqueues
nothing; in every run of `main` what was done by the end of the drain loop
holds no read from the interface and no enqueue, and what the capture loop
does comes after it. The capture loop is never left by `break`, and `main`
never ends with status 0, the only way to which leads through
`sqlite3_close`. -/
theorem drain_then_capture (s : State) (hasc : RowsAscending s.db.rows)
    (hfit : ∀ r ∈ s.db.rows, FitsInt r.rowid) :
    (∀ fuel, s.db.rows.length < fuel → (drainLoop fuel s).isUnfinished = false) ∧
    (∀ s1, drainBody s = Step.next s1 → s1.db.rows.length + 1 = s.db.rows.length) ∧
    (∀ fuel, (drainLoop fuel s).state.rx = s.rx ∧
      ∃ evs, (drainLoop fuel s).state.trace = s.trace ++ evs ∧ ∀ e ∈ evs, e.capture = false) ∧
    (∀ argv env fuelDrain fuelCapture,
      (∀ e ∈ (main argv env fuelDrain 0).trace, e.capture = false) ∧
      ∃ evs, (main argv env fuelDrain fuelCapture).trace
        = (main argv env fuelDrain 0).trace ++ evs) ∧
    (∀ fuel s2, (captureLoop fuel s2).isLeft = false) ∧
    (∀ argv env fuelDrain fuelCapture,
      (main argv env fuelDrain fuelCapture).outcome ≠ Outcome.exited 0) := by
  refine ⟨fun fuel h => drainLoop_ends fuel s hasc hfit h, ?_, fun fuel => drainLoop_no_capture fuel s,
    main_drain_first, captureLoop_not_left, main_never_returns_zero⟩
  intro s1 h
  rcases drainBody_cases s with ⟨s2, h1, _⟩ | ⟨o, s2, h1, _⟩ | ⟨s2, r, rest, h1, hp, hp1, _⟩
  · rw [h1] at h; simp at h
  · rw [h1] at h; simp at h
  · rw [h1] at h
    simp only [Step.next.injEq] at h
    subst h
    have hrows : s.db.rows = r :: rest := by simp [Db.rows, hp]
    rw [hrows] at hasc hfit
    rw [wrapInt32_of_fits _ (hfit r (List.mem_cons_self _ _)),
      filter_head_ascending r rest hasc] at hp1
    simp [Db.rows, hp1, hp]

/-- Witness of C9: a table of two rows is drained within three passes. -/
theorem drain_then_capture_witness :
    (drainLoop 3 (stateOf (enqueueAll emptyStore [[1], [2, 3]]))).isUnfinished = false :=
  (drain_then_capture (stateOf (enqueueAll emptyStore [[1], [2, 3]]))
    (by decide) (by decide)).1 3 (by decide)

/-! ## C10: frames and the buffer -/

theorem mem_insertRow (r x : Row) :
    ∀ rows : List Row, x ∈ insertRow r rows → x = r ∨ x ∈ rows := by
  intro rows
  induction rows with
  | nil => intro h; simpa [insertRow] using h
  | cons y ys ih =>
    intro h
    simp only [insertRow] at h
    split_ifs at h
    · simpa using h
    · rcases List.mem_cons.mp h with h1 | h1
      · exact Or.inr (by simp [h1])
      · rcases ih h1 with h2 | h2
        · exact Or.inl h2
        · exact Or.inr (List.mem_cons_of_mem _ h2)

theorem mem_writeBlob (db : Db) (zBlob : Blob) (nBlob : Nat) (x : Row)
    (h : x ∈ (writeBlob db zBlob nBlob).2.rows) : x ∈ db.rows ∨ x.data = zBlob.take nBlob := by
  rw [writeBlob_eq] at h
  unfold writeBlobSpec at h
  rcases hp : db.packets with _ | rows
  · rw [hp] at h
    exact Or.inl h
  · rw [hp] at h
    simp only at h
    rcases hn : newRowid rows db.prng with ⟨_ | v, prng⟩
    · rw [hn] at h
      simp only [Db.rows, Option.getD_some] at h
      exact Or.inl (by simpa [Db.rows, hp] using h)
    · rw [hn] at h
      simp only [Db.rows, Option.getD_some] at h
      rcases mem_insertRow _ x rows h with h1 | h1
      · exact Or.inr (by rw [h1])
      · exact Or.inl (by simpa [Db.rows, hp] using h1)

theorem captureLoop_bounded :
    ∀ (fuel : Nat) (s : State), (∀ r ∈ s.db.rows, r.data.length ≤ BUFSIZE) →
      ∀ r ∈ (captureLoop fuel s).state.db.rows, r.data.length ≤ BUFSIZE := by
  intro fuel
  induction fuel with
  | zero => intro s hs; exact hs
  | succ n ih =>
    intro s hs
    show ∀ r ∈ (whileOne captureBody (n + 1) s).state.db.rows, _
    rw [whileOne]
    rcases hrx : s.rx with _ | ⟨_ | bytes, rest⟩
    · simpa [captureBody, cread, hrx, LoopResult.state] using hs
    · simpa [captureBody, cread, hrx, LoopResult.state] using hs
    · rw [captureBody_got s bytes rest hrx]
      apply ih
      intro r hr
      rcases mem_writeBlob _ _ _ r hr with h1 | h1
      · exact hs r h1
      · rw [h1]
        simp

/-- C10: in a pass of the capture loop in which `read` returns bytes, what is
given to `writeBlob` is exactly those bytes, `nread` of them with
`nread ≤ BUFSIZE` and no wrap-around in the `uint16_t`, and every row of the
table afterwards is an old row or has those bytes as payload. When no payload
in the table is longer than BUFSIZE, that stays so through the capture loop,
and for every such row the copy loop of the drain loop stays inside `buffer`
and leaves the payload at its start. For a payload longer than BUFSIZE the
copy loop writes past the end of `buffer`, and so does the pass of the drain loop
that meets it. -/
theorem capture_within_buffer (s : State) (hs : ∀ r ∈ s.db.rows, r.data.length ≤ BUFSIZE) :
    (∀ bytes rest, s.rx = some bytes :: rest →
      ∃ s1, captureBody s = Step.next s1 ∧
        s1.db = (writeBlob s.db (bytes.take BUFSIZE) (bytes.take BUFSIZE).length).2 ∧
        s1.trace = s.trace ++ [Event.tapRead (bytes.take BUFSIZE).length,
                               Event.dbWrite (bytes.take BUFSIZE)] ∧
        (bytes.take BUFSIZE).length ≤ BUFSIZE ∧
        (bytes.take BUFSIZE).length % 65536 = (bytes.take BUFSIZE).length ∧
        ∀ r ∈ s1.db.rows, r ∈ s.db.rows ∨ r.data = bytes.take BUFSIZE) ∧
    (∀ fuel, ∀ r ∈ (captureLoop fuel s).state.db.rows,
      r.data.length ≤ BUFSIZE ∧
      ∀ buf, ∃ buf1, copyLoop r.data r.data.length 0 buf = some buf1 ∧
        buf1.first r.data.length = r.data) ∧
    (∀ (z : Blob) (buf : Buffer), BUFSIZE < z.length → copyLoop z z.length 0 buf = none) ∧
    (∀ (s2 : State) (r : Row) (rest : List Row), s2.db.packets = some (r :: rest) →
      BUFSIZE < r.data.length →
      drainBody s2 = Step.stop Outcome.undefined { s2 with db := s2.db.settled }) := by
  refine ⟨?_, ?_, ?_, ?_⟩
  · intro bytes rest hrx
    have hlen : (bytes.take BUFSIZE).length ≤ BUFSIZE := by simp
    refine ⟨_, captureBody_got s bytes rest hrx, rfl, rfl, hlen, ?_, ?_⟩
    · apply Nat.mod_eq_of_lt
      have hB : BUFSIZE = 2000 := rfl
      omega
    · intro r hr
      have := mem_writeBlob _ _ _ r hr
      rw [List.take_length] at this
      exact this
  · intro fuel r hr
    have hb := captureLoop_bounded fuel s hs r hr
    exact ⟨hb, fun buf => copyLoop_first r.data buf hb⟩
  · intro z buf hz
    exact copyLoop_past_end z z.length 0 buf (by omega) (by omega)
  · intro s2 r rest hp hlen
    exact drainBody_too_long s2 r rest hp hlen

/-- Witness of C10: one frame of 3 bytes captured into an empty table. -/
theorem capture_within_buffer_witness :
    ∃ s1, captureBody (stateRx emptyStore [some [1, 2, 3]]) = Step.next s1 ∧
      s1.trace = [Event.tapRead 3, Event.dbWrite [1, 2, 3]] := by
  obtain ⟨s1, h1, _, h3, _⟩ :=
    (capture_within_buffer (stateRx emptyStore [some [1, 2, 3]]) (by decide)).1 [1, 2, 3] [] rfl
  exact ⟨s1, h1, by simpa [stateRx, BUFSIZE] using h3⟩

end Sparrow
